import Mathlib

/-!
# otp.c : LCG keystream and partitioned XOR

A shallow embedding of `src/otp.c`.

* `unsigned long` and `size_t` values are natural numbers; every arithmetic
  result of those types is reduced with `wrap` (modulo `2 ^ 64`).
* `unsigned char` buffers are lists of natural numbers; a stored byte is
  reduced modulo `256`.
* An access outside a buffer, or a modulo by zero, is undefined behaviour in C
  and is `none` here.
* `malloc` returns a block whose content is unspecified: the content is the
  parameter `junk`.
-/

namespace OTP

/-! ## Machine arithmetic and memory -/

/-- Reduction of an `unsigned long` / `size_t` result (64 bits). -/
def wrap (x : Nat) : Nat := x % 2 ^ 64

/-- Conversion of an `int` result to `unsigned char`. -/
def to_uchar (x : Nat) : Nat := x % 256

/-- A block of `size` bytes returned by a successful `malloc`; byte `i` holds the
unspecified value `junk i`. -/
def malloc (junk : Nat → Nat) (size : Nat) : List Nat := (List.range size).map junk

/-! ## Data model (lines 13-32) -/

/-- The struct `prng_config`. -/
structure prng_config where
  initial : Nat
  multiplier : Nat
  increment : Nat
  modulus : Nat
deriving DecidableEq

/-- The struct `thread_params` without the pointer to the shared record;
`from_` is the field `from`, `to_` the field `to`. -/
structure thread_params where
  thread_id : Nat
  from_ : Nat
  to_ : Nat
deriving DecidableEq

/-! ## generate_pad (lines 34-44) -/

/-- The right-hand side of line 40 for a nonzero modulus: the product, the sum
and the remainder are each taken in `unsigned long`. -/
def lcg_step (config : prng_config) (value : Nat) : Nat :=
  wrap (wrap (config.multiplier * value) + config.increment) % config.modulus

/-- Line 40: the new `value`; `none` when the modulus is zero. -/
def next_value (config : prng_config) (value : Nat) : Option Nat :=
  if config.modulus = 0 then none else some (lcg_step config value)

/-- The loop of lines 39-42 with `n` iterations left, at index `i`, with the
current `value` and the current content of `random_pad`. -/
def generate_pad_loop (config : prng_config) :
    Nat → Nat → Nat → List Nat → Option (List Nat)
  | 0, _, _, random_pad => some random_pad
  | n + 1, i, value, random_pad =>
    match next_value config value with
    | none => none
    | some v =>
      if i < random_pad.length then
        generate_pad_loop config n (i + 1) v (random_pad.set i (to_uchar (v &&& 0xFF)))
      else none

/-- The function `generate_pad`: allocates `length` bytes with `alloc` and fills
them; the result is the final content of `random_pad`. -/
def generate_pad (alloc : Nat → List Nat) (config : prng_config) (length : Nat) :
    Option (List Nat) :=
  generate_pad_loop config length 0 config.initial (alloc length)

/-! ## xor_worker (lines 46-57) -/

/-- The loop of lines 50-52 with `n` iterations left, at index `i`. Reading
`input_data[i]` or `random_pad[i]`, or writing `result_data[i]`, outside the
buffer is `none`. -/
def xor_worker_loop (input_data random_pad : List Nat) :
    Nat → Nat → List Nat → Option (List Nat)
  | 0, _, result_data => some result_data
  | n + 1, i, result_data =>
    match input_data[i]?, random_pad[i]? with
    | some a, some k =>
      if i < result_data.length then
        xor_worker_loop input_data random_pad n (i + 1)
          (result_data.set i (to_uchar (a ^^^ k)))
      else none
    | _, _ => none

/-- The function `xor_worker` as a transformer of `result_data`: the loop runs
from `from` while `i < to`, that is `to - from` times (zero times when
`to <= from`). The barrier wait and the `free` have no effect on the buffers. -/
def xor_worker (input_data random_pad : List Nat) (params : thread_params)
    (result_data : List Nat) : Option (List Nat) :=
  xor_worker_loop input_data random_pad (params.to_ - params.from_) params.from_ result_data

/-! ## detect_cores (lines 59-69) -/

/-- The conversion of a wider integer to `int` (32 bits, two's complement), as
the assignments of lines 62 and 66 perform it. -/
def to_int (x : Int) : Int := (x + 2 ^ 31) % 2 ^ 32 - 2 ^ 31

/-- The function `detect_cores`; `reported` is what the host query returns (the
`long` of `sysconf` at line 62, the `DWORD` of line 66), which the assignment
stores in the `int` variable `cores`. -/
def detect_cores (reported : Int) : Int :=
  let cores := to_int reported
  if cores < 1 then 1 else cores

/-! ## The partitioning of main (lines 139-149) -/

/-- The `thread_params` that the loop of lines 142-149 fills for worker `i`. -/
def make_params (fsize thread_count i : Nat) : thread_params :=
  let step := fsize / thread_count
  let remainder := fsize % thread_count
  { thread_id := i
    from_ := wrap (i * step)
    to_ := if i = thread_count - 1 then wrap (wrap ((i + 1) * step) + remainder)
           else wrap ((i + 1) * step) }

/-- The parameters of all workers, in creation order `i = 0 .. thread_count - 1`. -/
def partitions (fsize thread_count : Nat) : List thread_params :=
  (List.range thread_count).map (make_params fsize thread_count)

/-- The workers of the list run one after another on the shared `result_data`. -/
def run_workers (input_data random_pad : List Nat) :
    List thread_params → List Nat → Option (List Nat)
  | [], result_data => some result_data
  | params :: rest, result_data =>
    match xor_worker input_data random_pad params result_data with
    | none => none
    | some r => run_workers input_data random_pad rest r

/-- The core of `main` (lines 117-149): `result_data` is allocated, `generate_pad`
runs to completion, then the buffer is partitioned among `thread_count` workers.
The result is the final content of `result_data`. -/
def pipeline (junk_pad junk_result : Nat → Nat) (config : prng_config)
    (thread_count : Nat) (input_data : List Nat) : Option (List Nat) :=
  let fsize := input_data.length
  let result_data := malloc junk_result fsize
  match generate_pad (malloc junk_pad) config fsize with
  | none => none
  | some random_pad =>
    run_workers input_data random_pad (partitions fsize thread_count) result_data

/-! ## main (lines 71-184) -/

/-- The variables `src`, `dst` and `gen_cfg` of `main`. -/
structure cli_args where
  src : Option String
  dst : Option String
  gen_cfg : prng_config

/-- Lines 73-74: both paths are `NULL` and the configuration is zeroed. -/
def cli_args.init : cli_args := { src := none, dst := none, gen_cfg := ⟨0, 0, 0, 0⟩ }

/-- The `switch` of lines 79-89 for one option returned by `getopt`; `strtoul` is
the C library function in base 10; `none` is the `default` branch. -/
def getopt_case (strtoul : String → Nat) (a : cli_args) (opt : Char) (optarg : String) :
    Option cli_args :=
  if opt = 'i' then some { a with src := some optarg }
  else if opt = 'o' then some { a with dst := some optarg }
  else if opt = 'x' then some { a with gen_cfg := { a.gen_cfg with initial := strtoul optarg } }
  else if opt = 'a' then some { a with gen_cfg := { a.gen_cfg with multiplier := strtoul optarg } }
  else if opt = 'c' then some { a with gen_cfg := { a.gen_cfg with increment := strtoul optarg } }
  else if opt = 'm' then some { a with gen_cfg := { a.gen_cfg with modulus := strtoul optarg } }
  else none

/-- The `while` loop of lines 78-90 over the options `getopt` returns in turn. -/
def getopt_loop (strtoul : String → Nat) : List (Char × String) → cli_args → Option cli_args
  | [], a => some a
  | (opt, optarg) :: rest, a =>
    match getopt_case strtoul a opt optarg with
    | none => none
    | some b => getopt_loop strtoul rest b

/-- What `main` depends on outside the program. -/
structure Host where
  /-- The C library `strtoul` in base 10. -/
  strtoul : String → Nat
  /-- The content of the file at a path when `fopen(path, "rb")` succeeds. -/
  read_file : String → Option (List Nat)
  /-- Whether `malloc` succeeds at line 107. -/
  malloc_buffer_ok : Bool
  /-- Whether `malloc` succeeds at line 121. -/
  malloc_result_ok : Bool
  /-- Whether `malloc` succeeds at line 36. -/
  malloc_pad_ok : Bool
  /-- Whether `malloc` succeeds at line 137. -/
  malloc_workers_ok : Bool
  /-- Whether `malloc` succeeds at line 143. -/
  malloc_params_ok : Bool
  /-- Initial content of the block of line 36. -/
  junk_pad : Nat → Nat
  /-- Initial content of the block of line 121. -/
  junk_result : Nat → Nat
  /-- The processor count the host query of `detect_cores` returns. -/
  cores : Int
  /-- Whether `fopen(path, "wb")` succeeds. -/
  can_write : String → Bool

/-- How a run of `main` ends. -/
inductive Status
  | EXIT_SUCCESS
  | EXIT_FAILURE
  | undefined_behaviour
deriving DecidableEq

/-- The observable steps of `main`, each with its source line. -/
inductive Event
  /-- Line 87. -/
  | usage_message
  /-- Line 93. -/
  | arguments_message
  /-- Line 97. -/
  | fopen_input (src : String)
  /-- Line 99. -/
  | input_error
  /-- Line 107. -/
  | malloc_buffer (size : Nat)
  /-- Line 109. -/
  | buffer_error
  /-- Line 121. -/
  | malloc_result (size : Nat)
  /-- Line 124. -/
  | result_error
  /-- Line 132; the allocation of line 36 happens inside. -/
  | generate_pad_call (config : prng_config) (length : Nat)
  /-- Line 137. -/
  | malloc_workers (count : Nat)
  /-- Line 148. -/
  | xor_worker_call (params : thread_params)
  /-- Line 153. -/
  | fopen_output (dst : String)
  /-- Line 155. -/
  | output_error
  /-- Line 163. -/
  | fwrite_output (data : List Nat)
deriving DecidableEq

/-- The result of a run: exit status and the steps taken, in order. -/
structure Run where
  status : Status
  trace : List Event

/-- The allocator `generate_pad` sees: a failed `malloc` returns `NULL`, a block
with no valid index. -/
def pad_alloc (host : Host) : Nat → List Nat :=
  if host.malloc_pad_ok then malloc host.junk_pad else fun _ => []

/-- Lines 135-184 of `main`, after `generate_pad` has returned. At line 136
`thread_count + 1` is computed in `int` and overflows for the largest `int`; a
thread count of zero would divide by zero at line 139; the blocks of lines 137
and 143 are used unchecked, so a failed allocation there is a write through
`NULL`. The thread calls are taken to succeed and the workers are run in creation
order. -/
def main_workers (host : Host) (dst : String) (input_data random_pad result_data : List Nat)
    (trace : List Event) : Run :=
  let fsize := input_data.length
  let thread_count := (detect_cores host.cores).toNat
  if 2 ^ 31 ≤ thread_count + 1 then ⟨Status.undefined_behaviour, trace⟩
  else
  let trace := trace ++ [Event.malloc_workers thread_count]
  if thread_count = 0 then ⟨Status.undefined_behaviour, trace⟩
  else if !host.malloc_workers_ok || !host.malloc_params_ok then
    ⟨Status.undefined_behaviour, trace⟩
  else
    let trace := trace ++ (partitions fsize thread_count).map Event.xor_worker_call
    match run_workers input_data random_pad (partitions fsize thread_count) result_data with
    | none => ⟨Status.undefined_behaviour, trace⟩
    | some out =>
      if host.can_write dst then
        ⟨Status.EXIT_SUCCESS, trace ++ [Event.fopen_output dst, Event.fwrite_output out]⟩
      else
        ⟨Status.EXIT_FAILURE, trace ++ [Event.fopen_output dst, Event.output_error]⟩

/-- Lines 97-133 of `main`, after the arguments have passed line 92. The file is
read whole: `fsize` is the length of its content. The thread of line 132 is
joined at once, so `generate_pad` runs to completion here. -/
def main_run (host : Host) (src dst : String) (gen_cfg : prng_config) : Run :=
  match host.read_file src with
  | none => ⟨Status.EXIT_FAILURE, [Event.fopen_input src, Event.input_error]⟩
  | some buffer =>
    let fsize := buffer.length
    let trace := [Event.fopen_input src, Event.malloc_buffer fsize]
    if !host.malloc_buffer_ok then ⟨Status.EXIT_FAILURE, trace ++ [Event.buffer_error]⟩
    else
      let trace := trace ++ [Event.malloc_result fsize]
      if !host.malloc_result_ok then ⟨Status.EXIT_FAILURE, trace ++ [Event.result_error]⟩
      else
        let trace := trace ++ [Event.generate_pad_call gen_cfg fsize]
        match generate_pad (pad_alloc host) gen_cfg fsize with
        | none => ⟨Status.undefined_behaviour, trace⟩
        | some random_pad =>
          main_workers host dst buffer random_pad (malloc host.junk_result fsize) trace

/-- The function `main` on the options `getopt` returns for `argv`. -/
def main (host : Host) (argv : List (Char × String)) : Run :=
  match getopt_loop host.strtoul argv cli_args.init with
  | none => ⟨Status.EXIT_FAILURE, [Event.usage_message]⟩
  | some a =>
    match a.src, a.dst with
    | some src, some dst =>
      if a.gen_cfg.modulus = 0 then ⟨Status.EXIT_FAILURE, [Event.arguments_message]⟩
      else main_run host src dst a.gen_cfg
    | _, _ => ⟨Status.EXIT_FAILURE, [Event.arguments_message]⟩

/-- A host for concrete runs: one five-byte file `in`, every allocation succeeds,
three processors, `strtoul` knows the texts `0` and `5`. -/
def sample_host : Host where
  strtoul := fun s => if s = "5" then 5 else 0
  read_file := fun path => if path = "in" then some [0, 0, 0, 0, 65] else none
  malloc_buffer_ok := true
  malloc_result_ok := true
  malloc_pad_ok := true
  malloc_workers_ok := true
  malloc_params_ok := true
  junk_pad := fun _ => 7
  junk_result := fun _ => 9
  cores := 3
  can_write := fun _ => true

/-! ## Specification side of the generator -/

/-- The recurrence of the claim: `state_0 = initial`,
`state_j = ((multiplier * state_(j-1) + increment) mod 2^64) mod modulus`. -/
def spec_state (config : prng_config) : Nat → Nat
  | 0 => config.initial
  | j + 1 => ((config.multiplier * spec_state config j + config.increment) % 2 ^ 64)
      % config.modulus

/-- The keystream of the claim for `length` bytes: byte `i` is `state_(i+1) mod 256`. -/
def spec_keystream (config : prng_config) (length : Nat) : List Nat :=
  (List.range length).map (fun i => spec_state config (i + 1) % 256)

/-! ## Specification side of the engine -/

/-- The byte `input[i] XOR keystream[i]` as `xor_worker` stores it (an index
outside a buffer reads as zero). -/
def xor_at (input_data random_pad : List Nat) (i : Nat) : Nat :=
  to_uchar (input_data.getD i 0 ^^^ random_pad.getD i 0)

/-- The buffer whose byte `i` is `xor_at input_data random_pad i`, as long as the
input. -/
def xor_image (input_data random_pad : List Nat) : List Nat :=
  (List.range input_data.length).map (xor_at input_data random_pad)

/-- Every element of the buffer is a value of `unsigned char`. -/
def is_bytes (buffer : List Nat) : Prop := ∀ b ∈ buffer, b < 256

/-- The half-open range `[from, to)` of a worker contains index `j`. -/
def in_range (params : thread_params) (j : Nat) : Prop :=
  params.from_ ≤ j ∧ j < params.to_

instance (params : thread_params) (j : Nat) : Decidable (in_range params j) := by
  unfold in_range
  infer_instance

instance (buffer : List Nat) : Decidable (is_bytes buffer) := by
  unfold is_bytes
  infer_instance

/-! ## The shared record seen by a worker -/

/-- The struct `shared_data` (lines 17-25) without the barrier. -/
structure shared_data where
  input_data : List Nat
  random_pad : List Nat
  result_data : List Nat
  length : Nat
  config : prng_config
  thread_count : Nat

/-- The function `xor_worker` on the shared record: line 51 assigns to
`result_data[i]` and to nothing else. -/
def xor_worker_shared (params : thread_params) (data : shared_data) : Option shared_data :=
  match xor_worker data.input_data data.random_pad params data.result_data with
  | none => none
  | some r => some { data with result_data := r }

/-! ## The generator in exact arithmetic -/

/-- The recurrence `state_i = (multiplier * state_(i-1) + increment) mod modulus`
over the unbounded integers. -/
def exact_state (config : prng_config) : Nat → Nat
  | 0 => config.initial
  | j + 1 => (config.multiplier * exact_state config j + config.increment) % config.modulus

/-- The keystream of `exact_state`: byte `i` is `state_(i+1) mod 256`. -/
def exact_keystream (config : prng_config) (length : Nat) : List Nat :=
  (List.range length).map (fun i => exact_state config (i + 1) % 256)

/-- The host `sample_host` with the allocation of line 36 failing. -/
def sample_host_pad_fails : Host := { sample_host with malloc_pad_ok := false }

/-- The host `sample_host` with the allocation of line 107 failing. -/
def sample_host_buffer_fails : Host := { sample_host with malloc_buffer_ok := false }

/-- The host `sample_host` with the allocation of line 121 failing. -/
def sample_host_result_fails : Host := { sample_host with malloc_result_ok := false }

/-! ## The threads of lines 136-163

The coordinator (the thread of `main`) creates the workers one by one, every
thread takes its steps in program order, and a schedule picks which thread moves
next. -/

/-- A party of the barrier, also the name of a thread in a schedule: worker `k`
or the coordinator. -/
inductive party
  | worker (k : Nat)
  | coordinator
deriving DecidableEq

/-- Where a worker thread stands in `xor_worker`. -/
inductive worker_pc
  /-- Not yet created by line 148. -/
  | not_created
  /-- At the test `i < to` of line 50. -/
  | looping (i : Nat)
  /-- Inside `pthread_barrier_wait`, line 54. -/
  | blocked
  /-- Past the barrier, lines 55-56. -/
  | finished
deriving DecidableEq

/-- Where the coordinator stands in `main`. -/
inductive coordinator_pc
  /-- At the test `i < thread_count` of line 142. -/
  | creating (i : Nat)
  /-- Inside `pthread_barrier_wait`, line 151. -/
  | blocked
  /-- Past the barrier, at line 153. -/
  | released
  /-- After the `fwrite` of line 163. -/
  | written
deriving DecidableEq

/-- The state the threads share and where each thread stands. -/
structure thread_state where
  result_data : List Nat
  workers : List worker_pc
  coordinator : coordinator_pc
  /-- The count given to `pthread_barrier_init` at line 136. -/
  barrier_count : Nat
  /-- The parties that have called `pthread_barrier_wait` so far, in order. -/
  arrivals : List party
  /-- The buffer line 163 wrote to the output file. -/
  written_file : Option (List Nat)

/-- Modelled from the spec: the library barrier behind `pthread_barrier_wait`,
which section 4.2 describes as a one-shot rendezvous where all parties block
until the last party arrives and are then released. A blocked party may leave
when the number of arrivals equals the count of the barrier. -/
def barrier_open (s : thread_state) : Prop := s.arrivals.length = s.barrier_count

instance (s : thread_state) : Decidable (barrier_open s) := by
  unfold barrier_open
  infer_instance

/-- The state at line 136: the result block is allocated, no worker exists, and
the barrier is initialised with `thread_count + 1`, an `int` sum passed as the
`unsigned` count. -/
def thread_init (junk : Nat → Nat) (fsize thread_count : Nat) : thread_state :=
  { result_data := malloc junk fsize
    workers := List.replicate thread_count worker_pc.not_created
    coordinator := coordinator_pc.creating 0
    barrier_count := (thread_count + 1) % 2 ^ 32
    arrivals := []
    written_file := none }

/-- One step of worker `k` (lines 50-56): an iteration of the loop (the test, the
two reads and the write of line 51, taken as one step since the buffers read are
never written), the arrival at the barrier once `i < to` fails, or leaving the
barrier when it is open. `none` when the worker cannot move, or on an access
outside a buffer. -/
def worker_step (input_data random_pad : List Nat) (fsize thread_count k : Nat)
    (s : thread_state) : Option thread_state :=
  match s.workers[k]? with
  | some (worker_pc.looping i) =>
    if i < (make_params fsize thread_count k).to_ then
      match input_data[i]?, random_pad[i]? with
      | some a, some b =>
        if i < s.result_data.length then
          some { s with
            result_data := s.result_data.set i (to_uchar (a ^^^ b))
            workers := s.workers.set k (worker_pc.looping (i + 1)) }
        else none
      | _, _ => none
    else
      some { s with
        arrivals := s.arrivals ++ [party.worker k]
        workers := s.workers.set k worker_pc.blocked }
  | some worker_pc.blocked =>
    if barrier_open s then some { s with workers := s.workers.set k worker_pc.finished }
    else none
  | _ => none

/-- One step of the coordinator (lines 142-163): the creation of the next worker
with its range, the arrival at the barrier after the last creation, leaving the
barrier when it is open, or the write of `result_data` to the output file (the
`fopen` of line 153 taken to succeed). -/
def coordinator_step (fsize thread_count : Nat) (s : thread_state) : Option thread_state :=
  match s.coordinator with
  | coordinator_pc.creating i =>
    if i < thread_count then
      some { s with
        workers := s.workers.set i
          (worker_pc.looping (make_params fsize thread_count i).from_)
        coordinator := coordinator_pc.creating (i + 1) }
    else
      some { s with
        arrivals := s.arrivals ++ [party.coordinator]
        coordinator := coordinator_pc.blocked }
  | coordinator_pc.blocked =>
    if barrier_open s then some { s with coordinator := coordinator_pc.released } else none
  | coordinator_pc.released =>
    some { s with written_file := some s.result_data, coordinator := coordinator_pc.written }
  | coordinator_pc.written => none

/-- One step of the thread the schedule names. -/
def thread_step (input_data random_pad : List Nat) (fsize thread_count : Nat)
    (s : thread_state) : party → Option thread_state
  | party.worker k => worker_step input_data random_pad fsize thread_count k s
  | party.coordinator => coordinator_step fsize thread_count s

/-- The interleaving a schedule describes: its threads move one after another;
`none` when the schedule names a thread that cannot move. -/
def thread_run (input_data random_pad : List Nat) (fsize thread_count : Nat) :
    thread_state → List party → Option thread_state
  | s, [] => some s
  | s, p :: schedule =>
    match thread_step input_data random_pad fsize thread_count s p with
    | none => none
    | some t => thread_run input_data random_pad fsize thread_count t schedule

/-- Index `j` of the result buffer holds its final byte. -/
def byte_done (input_data random_pad result_data : List Nat) (j : Nat) : Prop :=
  result_data[j]? = some (xor_at input_data random_pad j)

/-- What holds of worker `k` at each place: before its arrival it is not among the
arrivals and has written its range up to `i`; from its arrival on it is among
the arrivals and has written its whole range. -/
def worker_inv (input_data random_pad : List Nat) (n : Nat) (arrivals : List party)
    (result_data : List Nat) (k : Nat) : worker_pc → Prop
  | worker_pc.not_created => party.worker k ∉ arrivals
  | worker_pc.looping i =>
    party.worker k ∉ arrivals ∧
    (make_params input_data.length n k).from_ ≤ i ∧
    i ≤ (make_params input_data.length n k).to_ ∧
    ∀ j, (make_params input_data.length n k).from_ ≤ j → j < i →
      byte_done input_data random_pad result_data j
  | worker_pc.blocked =>
    party.worker k ∈ arrivals ∧
    ∀ j, in_range (make_params input_data.length n k) j →
      byte_done input_data random_pad result_data j
  | worker_pc.finished =>
    party.worker k ∈ arrivals ∧
    ∀ j, in_range (make_params input_data.length n k) j →
      byte_done input_data random_pad result_data j

/-- What holds of the coordinator at each place. -/
def coordinator_inv (n : Nat) (arrivals : List party) (workers : List worker_pc) :
    coordinator_pc → Prop
  | coordinator_pc.creating i =>
    party.coordinator ∉ arrivals ∧
    ∀ k, i ≤ k → k < n → workers[k]? = some worker_pc.not_created
  | coordinator_pc.blocked => party.coordinator ∈ arrivals
  | coordinator_pc.released =>
    party.coordinator ∈ arrivals ∧ ∀ k, k < n → party.worker k ∈ arrivals
  | coordinator_pc.written =>
    party.coordinator ∈ arrivals ∧ ∀ k, k < n → party.worker k ∈ arrivals

/-- The invariant of the threads for `n` workers. -/
structure thread_inv (input_data random_pad : List Nat) (n : Nat) (s : thread_state) :
    Prop where
  workers_length : s.workers.length = n
  result_length : s.result_data.length = input_data.length
  count_eq : s.barrier_count = n + 1
  nodup : s.arrivals.Nodup
  known : ∀ p ∈ s.arrivals, p = party.coordinator ∨ ∃ k, k < n ∧ p = party.worker k
  worker_ok : ∀ k pc, s.workers[k]? = some pc →
    worker_inv input_data random_pad n s.arrivals s.result_data k pc
  coordinator_ok : coordinator_inv n s.arrivals s.workers s.coordinator
  file_ok : ∀ out, s.written_file = some out → out = xor_image input_data random_pad

/-- A schedule for two workers on three bytes: worker 0 writes its byte before
worker 1 exists, and the coordinator arrives at the barrier between the two
workers. -/
def sample_schedule : List party :=
  [party.coordinator, party.worker 0, party.coordinator, party.worker 1, party.worker 1,
    party.worker 0, party.coordinator, party.worker 1, party.coordinator, party.coordinator]

/-- The state `sample_schedule` reaches on input `[1, 2, 3]` and pad `[4, 5, 6]`. -/
def sample_final : thread_state :=
  { result_data := [5, 7, 5]
    workers := [worker_pc.blocked, worker_pc.blocked]
    coordinator := coordinator_pc.written
    barrier_count := 3
    arrivals := [party.worker 0, party.coordinator, party.worker 1]
    written_file := some [5, 7, 5] }

/-! ## Memory lemmas -/

theorem malloc_length (junk : Nat → Nat) (size : Nat) : (malloc junk size).length = size := by
  simp [malloc]

theorem low_byte (v : Nat) : to_uchar (v &&& 0xFF) = v % 256 := by
  have h : v &&& 0xFF = v % 256 := Nat.and_pow_two_sub_one_eq_mod v 8
  rw [h]
  simp [to_uchar]

theorem lcg_step_eq (config : prng_config) (value : Nat) :
    lcg_step config value
      = ((config.multiplier * value + config.increment) % 2 ^ 64) % config.modulus := by
  simp [lcg_step, wrap, Nat.add_mod]

/-! ## generate_pad -/

theorem spec_state_eq_iterate (config : prng_config) (j : Nat) :
    spec_state config j = (lcg_step config)^[j] config.initial := by
  induction j with
  | zero => rfl
  | succ j ih => rw [Function.iterate_succ_apply', spec_state, lcg_step_eq, ih]

/-- The loop of `generate_pad` under a nonzero modulus and with room for its `n`
writes: it returns, keeps the buffer length, writes the low byte of the `k+1`-th
next value at `i + k`, and changes no other index. -/
theorem generate_pad_loop_spec (config : prng_config) (hm : 0 < config.modulus) :
    ∀ (n i value : Nat) (random_pad : List Nat), i + n ≤ random_pad.length →
      ∃ out, generate_pad_loop config n i value random_pad = some out ∧
        out.length = random_pad.length ∧
        (∀ k, k < n → out[i + k]? = some ((lcg_step config)^[k + 1] value % 256)) ∧
        (∀ j, j < i ∨ i + n ≤ j → out[j]? = random_pad[j]?) := by
  intro n
  induction n with
  | zero =>
    intro i value random_pad _
    exact ⟨random_pad, rfl, rfl, fun k hk => absurd hk (Nat.not_lt_zero k), fun _ _ => rfl⟩
  | succ n ih =>
    intro i value random_pad hlen
    have hi : i < random_pad.length := by omega
    have hnv : next_value config value = some (lcg_step config value) := by
      simp [next_value, Nat.pos_iff_ne_zero.mp hm]
    obtain ⟨out, hout, hl, hw, hf⟩ := ih (i + 1) (lcg_step config value)
      (random_pad.set i (to_uchar (lcg_step config value &&& 0xFF)))
      (by simp only [List.length_set]; omega)
    refine ⟨out, ?_, ?_, ?_, ?_⟩
    · simp only [generate_pad_loop, hnv, hi, if_true]
      exact hout
    · simpa using hl
    · intro k hk
      cases k with
      | zero =>
        rw [Nat.add_zero, hf i (Or.inl (Nat.lt_succ_self i)), List.getElem?_set, if_pos rfl,
          if_pos hi, low_byte]
        rfl
      | succ k =>
        have h := hw k (by omega)
        rw [show i + (k + 1) = i + 1 + k by omega, h]
        rfl
    · intro j hj
      rw [hf j (by omega), List.getElem?_set_ne (by omega)]

theorem generate_pad_eq_spec_keystream (junk : Nat → Nat) (config : prng_config)
    (hm : 0 < config.modulus) (L : Nat) :
    generate_pad (malloc junk) config L = some (spec_keystream config L) := by
  obtain ⟨out, hout, hl, hw, _⟩ :=
    generate_pad_loop_spec config hm L 0 config.initial (malloc junk L)
      (by simp [malloc_length])
  rw [malloc_length] at hl
  unfold generate_pad
  rw [hout]
  congr 1
  apply List.ext_getElem?
  intro j
  by_cases hj : j < L
  · have h := hw j hj
    rw [Nat.zero_add] at h
    rw [h, spec_keystream, List.getElem?_map, List.getElem?_range hj, Option.map_some',
      spec_state_eq_iterate]
  · rw [List.getElem?_eq_none (by omega), List.getElem?_eq_none (by simp [spec_keystream]; omega)]

theorem spec_keystream_length (config : prng_config) (L : Nat) :
    (spec_keystream config L).length = L := by
  simp [spec_keystream]

theorem spec_keystream_getElem? (config : prng_config) (L i : Nat) (hi : i < L) :
    (spec_keystream config L)[i]? = some (spec_state config (i + 1) % 256) := by
  simp [spec_keystream, List.getElem?_map, List.getElem?_range hi]

theorem spec_keystream_is_bytes (config : prng_config) (L : Nat) :
    is_bytes (spec_keystream config L) := by
  intro b hb
  simp only [spec_keystream, List.mem_map] at hb
  obtain ⟨i, _, rfl⟩ := hb
  exact Nat.mod_lt _ (by decide)

/-! ## xor_worker -/

theorem xor_at_eq (input_data random_pad : List Nat) (i a k : Nat)
    (ha : input_data[i]? = some a) (hk : random_pad[i]? = some k) :
    xor_at input_data random_pad i = to_uchar (a ^^^ k) := by
  simp [xor_at, List.getD, ha, hk]

/-- The loop of `xor_worker` when its `n` indices from `i` on lie inside the three
buffers: it returns, keeps the length of `result_data`, stores the XOR byte at
every index of `[i, i + n)` and changes no other index. -/
theorem xor_worker_loop_spec (input_data random_pad : List Nat) :
    ∀ (n i : Nat) (result_data : List Nat),
      i + n ≤ input_data.length → i + n ≤ random_pad.length → i + n ≤ result_data.length →
      ∃ out, xor_worker_loop input_data random_pad n i result_data = some out ∧
        out.length = result_data.length ∧
        (∀ j, i ≤ j → j < i + n → out[j]? = some (xor_at input_data random_pad j)) ∧
        (∀ j, j < i ∨ i + n ≤ j → out[j]? = result_data[j]?) := by
  intro n
  induction n with
  | zero =>
    intro i result_data _ _ _
    exact ⟨result_data, rfl, rfl, fun j h1 h2 => by omega, fun _ _ => rfl⟩
  | succ n ih =>
    intro i result_data h1 h2 h3
    have hi1 : i < input_data.length := by omega
    have hi2 : i < random_pad.length := by omega
    have hi3 : i < result_data.length := by omega
    have ha : input_data[i]? = some input_data[i] := List.getElem?_eq_getElem hi1
    have hk : random_pad[i]? = some random_pad[i] := List.getElem?_eq_getElem hi2
    obtain ⟨out, hout, hl, hw, hf⟩ := ih (i + 1)
      (result_data.set i (to_uchar (input_data[i] ^^^ random_pad[i])))
      (by omega) (by omega) (by simp only [List.length_set]; omega)
    refine ⟨out, ?_, ?_, ?_, ?_⟩
    · simp only [xor_worker_loop, ha, hk, hi3, if_true]
      exact hout
    · simpa using hl
    · intro j hj1 hj2
      by_cases hji : j = i
      · subst hji
        rw [hf j (Or.inl (Nat.lt_succ_self j)), List.getElem?_set, if_pos rfl, if_pos hi3,
          xor_at_eq input_data random_pad j _ _ ha hk]
      · exact hw j (by omega) (by omega)
    · intro j hj
      rw [hf j (by omega), List.getElem?_set_ne (by omega)]

/-- A worker whose range lies inside the buffers of length `L`. -/
theorem xor_worker_spec (input_data random_pad result_data : List Nat) (L : Nat)
    (h1 : input_data.length = L) (h2 : random_pad.length = L) (h3 : result_data.length = L)
    (params : thread_params) (hft : params.from_ ≤ params.to_) (htl : params.to_ ≤ L) :
    ∃ out, xor_worker input_data random_pad params result_data = some out ∧
      out.length = L ∧
      (∀ j, in_range params j → out[j]? = some (xor_at input_data random_pad j)) ∧
      (∀ j, ¬ in_range params j → out[j]? = result_data[j]?) := by
  obtain ⟨out, hout, hl, hw, hf⟩ :=
    xor_worker_loop_spec input_data random_pad (params.to_ - params.from_) params.from_
      result_data (by omega) (by omega) (by omega)
  refine ⟨out, hout, by omega, ?_, ?_⟩
  · intro j hj
    exact hw j hj.1 (by have := hj.2; omega)
  · intro j hj
    apply hf
    unfold in_range at hj
    omega

/-- Workers with ranges inside the buffers, run one after another in any list
order: the run returns, and an index holds the XOR byte when some worker of the
list has it in range, its previous content otherwise. -/
theorem run_workers_spec (input_data random_pad : List Nat) (L : Nat)
    (h1 : input_data.length = L) (h2 : random_pad.length = L) :
    ∀ (ps : List thread_params) (result_data : List Nat), result_data.length = L →
      (∀ p ∈ ps, p.from_ ≤ p.to_ ∧ p.to_ ≤ L) →
      ∃ out, run_workers input_data random_pad ps result_data = some out ∧
        out.length = L ∧
        (∀ j, (∃ p ∈ ps, in_range p j) → out[j]? = some (xor_at input_data random_pad j)) ∧
        (∀ j, (¬ ∃ p ∈ ps, in_range p j) → out[j]? = result_data[j]?) := by
  intro ps
  induction ps with
  | nil =>
    intro result_data h3 _
    exact ⟨result_data, rfl, h3, fun j ⟨p, hp, _⟩ => by simp at hp, fun _ _ => rfl⟩
  | cons p ps ih =>
    intro result_data h3 hps
    have hp := hps p (List.mem_cons_self p ps)
    obtain ⟨r, hr, hrl, hrw, hrf⟩ :=
      xor_worker_spec input_data random_pad result_data L h1 h2 h3 p hp.1 hp.2
    obtain ⟨out, hout, hl, hw, hf⟩ := ih r hrl (fun q hq => hps q (List.mem_cons_of_mem p hq))
    refine ⟨out, ?_, hl, ?_, ?_⟩
    · simp only [run_workers, hr]
      exact hout
    · intro j ⟨q, hq, hqj⟩
      by_cases hex : ∃ q ∈ ps, in_range q j
      · exact hw j hex
      · rw [hf j hex]
        rcases List.mem_cons.mp hq with rfl | hq
        · exact hrw j hqj
        · exact absurd ⟨q, hq, hqj⟩ hex
    · intro j hj
      have hnp : ¬ in_range p j := fun h => hj ⟨p, List.mem_cons_self p ps, h⟩
      have hnps : ¬ ∃ q ∈ ps, in_range q j :=
        fun ⟨q, hq, h⟩ => hj ⟨q, List.mem_cons_of_mem p hq, h⟩
      rw [hf j hnps, hrf j hnp]

/-! ## The partitioning of main -/

theorem wrap_of_lt (x : Nat) (h : x < 2 ^ 64) : wrap x = x := Nat.mod_eq_of_lt h

theorem mul_step_le (L n k : Nat) (hk : k ≤ n) : k * (L / n) ≤ L :=
  calc k * (L / n) ≤ n * (L / n) := Nat.mul_le_mul_right _ hk
    _ ≤ L := Nat.mul_div_le L n

/-- Line 146 does not wrap. -/
theorem make_params_from (L n k : Nat) (hL : L < 2 ^ 64) (hk : k < n) :
    (make_params L n k).from_ = k * (L / n) := by
  have h := mul_step_le L n k (Nat.le_of_lt hk)
  simp only [make_params]
  exact wrap_of_lt _ (by omega)

/-- Line 147 for a worker that is not the last does not wrap. -/
theorem make_params_to_inner (L n k : Nat) (hL : L < 2 ^ 64) (hk : k + 1 < n) :
    (make_params L n k).to_ = (k + 1) * (L / n) := by
  have h := mul_step_le L n (k + 1) (Nat.le_of_lt hk)
  simp only [make_params]
  rw [if_neg (by omega)]
  exact wrap_of_lt _ (by omega)

/-- Line 147 for the last worker does not wrap and ends at the buffer length. -/
theorem make_params_to_last (L n : Nat) (hn : 1 ≤ n) (hL : L < 2 ^ 64) :
    (make_params L n (n - 1)).to_ = n * (L / n) + L % n ∧
      (make_params L n (n - 1)).to_ = L := by
  have h := mul_step_le L n n (Nat.le_refl n)
  have hdm : n * (L / n) + L % n = L := Nat.div_add_mod L n
  have hto : (make_params L n (n - 1)).to_ = n * (L / n) + L % n := by
    simp only [make_params]
    rw [if_pos trivial, Nat.sub_add_cancel hn, wrap_of_lt (n * (L / n)) (by omega)]
    exact wrap_of_lt _ (by omega)
  exact ⟨hto, hto.trans hdm⟩

theorem mem_partitions (L n : Nat) (p : thread_params) :
    p ∈ partitions L n ↔ ∃ k, k < n ∧ make_params L n k = p := by
  simp [partitions, List.mem_map, List.mem_range]

/-- Every range main computes satisfies `from <= to <= length`. -/
theorem make_params_bounds (L n k : Nat) (hn : 1 ≤ n) (hL : L < 2 ^ 64) (hk : k < n) :
    (make_params L n k).from_ ≤ (make_params L n k).to_ ∧ (make_params L n k).to_ ≤ L := by
  rw [make_params_from L n k hL hk]
  by_cases hlast : k + 1 < n
  · rw [make_params_to_inner L n k hL hlast]
    exact ⟨Nat.mul_le_mul_right _ (Nat.le_succ k), mul_step_le L n (k + 1) (Nat.le_of_lt hlast)⟩
  · have hkn : k = n - 1 := by omega
    subst hkn
    rw [(make_params_to_last L n hn hL).2]
    exact ⟨mul_step_le L n (n - 1) (Nat.sub_le n 1), Nat.le_refl L⟩

/-- Every index below the length lies in the range of some worker. -/
theorem partition_covers (L n j : Nat) (hn : 1 ≤ n) (hL : L < 2 ^ 64) (hj : j < L) :
    ∃ k, k < n ∧ in_range (make_params L n k) j := by
  by_cases hlow : j < (n - 1) * (L / n)
  · have hstep : 0 < L / n := by
      rcases Nat.eq_zero_or_pos (L / n) with h0 | h0
      · rw [h0] at hlow; omega
      · exact h0
    have hq : j / (L / n) < n - 1 := (Nat.div_lt_iff_lt_mul hstep).mpr hlow
    refine ⟨j / (L / n), by omega, ?_⟩
    unfold in_range
    rw [make_params_from L n _ hL (by omega), make_params_to_inner L n _ hL (by omega)]
    constructor
    · exact Nat.div_mul_le_self j (L / n)
    · rw [Nat.mul_comm]
      exact Nat.lt_mul_div_succ j hstep
  · refine ⟨n - 1, by omega, ?_⟩
    unfold in_range
    rw [make_params_from L n _ hL (by omega), (make_params_to_last L n hn hL).2]
    exact ⟨by omega, hj⟩

/-- The ranges of two different workers share no index. -/
theorem partition_disjoint (L n k1 k2 j : Nat) (hL : L < 2 ^ 64)
    (hk1 : k1 < n) (hk2 : k2 < n) (hlt : k1 < k2) :
    ¬ (in_range (make_params L n k1) j ∧ in_range (make_params L n k2) j) := by
  rintro ⟨⟨_, h1⟩, ⟨h2, _⟩⟩
  rw [make_params_to_inner L n k1 hL (by omega)] at h1
  rw [make_params_from L n k2 hL hk2] at h2
  have h3 : (k1 + 1) * (L / n) ≤ k2 * (L / n) := Nat.mul_le_mul_right _ hlt
  omega

/-! ## The engine: partition, then XOR -/

/-- The workers main creates, run on a freshly allocated `result_data`, return and
leave `xor_image` in it, whatever the block held before. -/
theorem engine_spec (junk : Nat → Nat) (input_data random_pad : List Nat) (n : Nat)
    (hlen : random_pad.length = input_data.length) (hsize : input_data.length < 2 ^ 64)
    (hn : 1 ≤ n) :
    run_workers input_data random_pad (partitions input_data.length n)
      (malloc junk input_data.length) = some (xor_image input_data random_pad) := by
  obtain ⟨out, hout, hl, hw, _⟩ :=
    run_workers_spec input_data random_pad input_data.length rfl hlen
      (partitions input_data.length n) (malloc junk input_data.length) (malloc_length _ _)
      (by
        intro p hp
        obtain ⟨k, hk, rfl⟩ := (mem_partitions _ _ _).mp hp
        exact make_params_bounds _ n k hn hsize hk)
  rw [hout]
  congr 1
  apply List.ext_getElem?
  intro j
  by_cases hj : j < input_data.length
  · obtain ⟨k, hk, hin⟩ := partition_covers input_data.length n j hn hsize hj
    rw [hw j ⟨_, (mem_partitions _ _ _).mpr ⟨k, hk, rfl⟩, hin⟩, xor_image, List.getElem?_map,
      List.getElem?_range hj, Option.map_some']
  · rw [List.getElem?_eq_none (by omega), List.getElem?_eq_none (by simp [xor_image]; omega)]

theorem xor_image_length (input_data random_pad : List Nat) :
    (xor_image input_data random_pad).length = input_data.length := by
  simp [xor_image]

theorem xor_image_getElem? (input_data random_pad : List Nat) (i : Nat)
    (hi : i < input_data.length) :
    (xor_image input_data random_pad)[i]? = some (xor_at input_data random_pad i) := by
  simp [xor_image, List.getElem?_map, List.getElem?_range hi]

theorem xor_lt_256 (a k : Nat) (ha : a < 256) (hk : k < 256) : a ^^^ k < 256 :=
  Nat.xor_lt_two_pow (n := 8) ha hk

theorem to_uchar_of_lt (x : Nat) (h : x < 256) : to_uchar x = x := Nat.mod_eq_of_lt h

theorem is_bytes_getElem (buffer : List Nat) (h : is_bytes buffer) (i : Nat)
    (hi : i < buffer.length) : buffer[i] < 256 :=
  h _ (List.getElem_mem hi)

/-- On byte buffers the stored byte is the plain XOR. -/
theorem xor_at_of_bytes (input_data random_pad : List Nat) (hin : is_bytes input_data)
    (hks : is_bytes random_pad) (i : Nat) (h1 : i < input_data.length)
    (h2 : i < random_pad.length) :
    xor_at input_data random_pad i = input_data[i] ^^^ random_pad[i] := by
  rw [xor_at_eq input_data random_pad i _ _ (List.getElem?_eq_getElem h1)
    (List.getElem?_eq_getElem h2)]
  exact to_uchar_of_lt _ (xor_lt_256 _ _ (is_bytes_getElem _ hin i h1)
    (is_bytes_getElem _ hks i h2))

/-- Applying the same pad twice gives the input back, for a byte input and a byte
pad of the same length. -/
theorem xor_image_involutive (input_data random_pad : List Nat) (hin : is_bytes input_data)
    (hks : is_bytes random_pad) (hlen : random_pad.length = input_data.length) :
    xor_image (xor_image input_data random_pad) random_pad = input_data := by
  apply List.ext_getElem?
  intro j
  by_cases hj : j < input_data.length
  · have hj2 : j < random_pad.length := by omega
    have ha := is_bytes_getElem _ hin j hj
    have hk := is_bytes_getElem _ hks j hj2
    rw [xor_image_getElem? _ _ j (by rw [xor_image_length]; exact hj),
      xor_at_eq _ random_pad j _ _ (xor_image_getElem? _ _ j hj) (List.getElem?_eq_getElem hj2),
      xor_at_of_bytes _ _ hin hks j hj hj2, Nat.xor_cancel_right,
      to_uchar_of_lt _ ha, List.getElem?_eq_getElem hj]
  · rw [List.getElem?_eq_none (by simp [xor_image]; omega), List.getElem?_eq_none (by omega)]

/-- Closed form of the pipeline under a nonzero modulus. -/
theorem pipeline_eq (junk_pad junk_result : Nat → Nat) (config : prng_config)
    (hm : 0 < config.modulus) (n : Nat) (hn : 1 ≤ n) (input_data : List Nat)
    (hsize : input_data.length < 2 ^ 64) :
    pipeline junk_pad junk_result config n input_data
      = some (xor_image input_data (spec_keystream config input_data.length)) := by
  simp only [pipeline, generate_pad_eq_spec_keystream junk_pad config hm]
  exact engine_spec junk_result input_data _ n (spec_keystream_length _ _) hsize hn

/-! ## Claims on the generator and the engine -/

/-- C1: for a configuration with a nonzero modulus and any length `L`,
`generate_pad` returns a pad of `L` bytes whose byte `i` is `state_(i+1) mod 256`,
where `state_0 = initial` and
`state_j = ((multiplier * state_(j-1) + increment) mod 2^64) mod modulus`. -/
theorem generate_pad_lcg_low_bytes (junk : Nat → Nat) (config : prng_config)
    (hm : 0 < config.modulus) (L : Nat) :
    ∃ keystream, generate_pad (malloc junk) config L = some keystream ∧
      keystream.length = L ∧
      ∀ i, i < L → keystream[i]? = some (spec_state config (i + 1) % 256) :=
  ⟨spec_keystream config L, generate_pad_eq_spec_keystream junk config hm L,
    spec_keystream_length config L, spec_keystream_getElem? config L⟩

theorem generate_pad_lcg_low_bytes_witness :
    0 < (prng_config.mk 1 1103515245 12345 2147483648).modulus ∧
    ∃ keystream,
      generate_pad (malloc (fun _ => 0)) (prng_config.mk 1 1103515245 12345 2147483648) 4
        = some keystream ∧
      keystream.length = 4 ∧
      ∀ i, i < 4 → keystream[i]?
        = some (spec_state (prng_config.mk 1 1103515245 12345 2147483648) (i + 1) % 256) :=
  ⟨by decide, generate_pad_lcg_low_bytes (fun _ => 0) _ (by decide) 4⟩

/-- C2: for byte buffers `input_data` and `keystream` of the same length and
`thread_count >= 1`, running every worker main creates over its range leaves an
output of exactly that length with `output[i] = input[i] XOR keystream[i]` at
every index. -/
theorem partitioned_xor_output (junk : Nat → Nat) (input_data keystream : List Nat)
    (thread_count : Nat) (hlen : keystream.length = input_data.length)
    (hsize : input_data.length < 2 ^ 64) (hin : is_bytes input_data)
    (hks : is_bytes keystream) (hn : 1 ≤ thread_count) :
    ∃ output,
      run_workers input_data keystream (partitions input_data.length thread_count)
        (malloc junk input_data.length) = some output ∧
      output.length = input_data.length ∧
      ∀ i (h1 : i < input_data.length) (h2 : i < keystream.length),
        output[i]? = some (input_data[i] ^^^ keystream[i]) := by
  refine ⟨xor_image input_data keystream,
    engine_spec junk input_data keystream thread_count hlen hsize hn,
    xor_image_length _ _, ?_⟩
  intro i h1 h2
  rw [xor_image_getElem? _ _ i h1, xor_at_of_bytes _ _ hin hks i h1 h2]

theorem partitioned_xor_output_witness :
    [4, 5, 6].length = [1, 2, 3].length ∧ [1, 2, 3].length < 2 ^ 64 ∧
    is_bytes [1, 2, 3] ∧ is_bytes [4, 5, 6] ∧ 1 ≤ 2 ∧
    ∃ output,
      run_workers [1, 2, 3] [4, 5, 6] (partitions [1, 2, 3].length 2)
        (malloc (fun _ => 9) [1, 2, 3].length) = some output ∧
      output.length = [1, 2, 3].length ∧
      ∀ i (h1 : i < [1, 2, 3].length) (h2 : i < [4, 5, 6].length),
        output[i]? = some ([1, 2, 3][i] ^^^ [4, 5, 6][i]) :=
  ⟨rfl, by decide, by decide, by decide, by decide,
    partitioned_xor_output (fun _ => 9) [1, 2, 3] [4, 5, 6] 2 rfl (by decide) (by decide)
      (by decide) (by decide)⟩

/-- C3: self-inverse. For a byte input, a configuration with a nonzero modulus and
any two worker counts `>= 1`, the pipeline returns, and the pipeline run again on
its result with the same configuration returns exactly the input. -/
theorem pipeline_self_inverse (junk1 junk2 junk3 junk4 : Nat → Nat) (config : prng_config)
    (hm : 0 < config.modulus) (n1 n2 : Nat) (hn1 : 1 ≤ n1) (hn2 : 1 ≤ n2)
    (input_data : List Nat) (hin : is_bytes input_data)
    (hsize : input_data.length < 2 ^ 64) :
    ∃ mid, pipeline junk1 junk2 config n1 input_data = some mid ∧
      pipeline junk3 junk4 config n2 mid = some input_data := by
  refine ⟨_, pipeline_eq junk1 junk2 config hm n1 hn1 input_data hsize, ?_⟩
  rw [pipeline_eq junk3 junk4 config hm n2 hn2 _ (by rw [xor_image_length]; exact hsize),
    xor_image_length,
    xor_image_involutive _ _ hin (spec_keystream_is_bytes _ _) (spec_keystream_length _ _)]

theorem pipeline_self_inverse_witness :
    0 < (prng_config.mk 1 1103515245 12345 2147483648).modulus ∧ 1 ≤ 2 ∧ 1 ≤ 3 ∧
    is_bytes [10, 20, 30, 40, 250] ∧ [10, 20, 30, 40, 250].length < 2 ^ 64 ∧
    ∃ mid,
      pipeline (fun _ => 1) (fun _ => 2) (prng_config.mk 1 1103515245 12345 2147483648) 2
        [10, 20, 30, 40, 250] = some mid ∧
      pipeline (fun _ => 3) (fun _ => 4) (prng_config.mk 1 1103515245 12345 2147483648) 3 mid
        = some [10, 20, 30, 40, 250] :=
  ⟨by decide, by decide, by decide, by decide, by decide,
    pipeline_self_inverse (fun _ => 1) (fun _ => 2) (fun _ => 3) (fun _ => 4) _ (by decide)
      2 3 (by decide) (by decide) [10, 20, 30, 40, 250] (by decide) (by decide)⟩

/-- C4: partition coverage. For `thread_count >= 1` the ranges main assigns to the
workers `k = 0 .. thread_count - 1` are pairwise disjoint (as a list and by worker
number), their union is exactly `[0, length)`, and every index below the length
lies in the range of exactly one worker. -/
theorem partition_coverage (L n : Nat) (hn : 1 ≤ n) (hL : L < 2 ^ 64) :
    (partitions L n).Pairwise (fun p q => ∀ j, ¬ (in_range p j ∧ in_range q j)) ∧
    (∀ k1 k2, k1 < n → k2 < n → k1 ≠ k2 →
      ∀ j, ¬ (in_range (make_params L n k1) j ∧ in_range (make_params L n k2) j)) ∧
    (∀ j, j < L ↔ ∃ p ∈ partitions L n, in_range p j) ∧
    (∀ j, j < L → ∃! k, k < n ∧ in_range (make_params L n k) j) := by
  have hdis : ∀ k1 k2, k1 < n → k2 < n → k1 ≠ k2 →
      ∀ j, ¬ (in_range (make_params L n k1) j ∧ in_range (make_params L n k2) j) := by
    intro k1 k2 h1 h2 hne j hj
    rcases Nat.lt_or_gt_of_ne hne with h | h
    · exact partition_disjoint L n k1 k2 j hL h1 h2 h hj
    · exact partition_disjoint L n k2 k1 j hL h2 h1 h ⟨hj.2, hj.1⟩
  refine ⟨?_, hdis, ?_, ?_⟩
  · unfold partitions
    rw [List.pairwise_map]
    refine List.Pairwise.imp_of_mem ?_ (List.pairwise_lt_range n)
    intro a b ha hb hab j
    exact hdis a b (List.mem_range.mp ha) (List.mem_range.mp hb) (Nat.ne_of_lt hab) j
  · intro j
    constructor
    · intro hj
      obtain ⟨k, hk, hin⟩ := partition_covers L n j hn hL hj
      exact ⟨_, (mem_partitions _ _ _).mpr ⟨k, hk, rfl⟩, hin⟩
    · rintro ⟨p, hp, hin⟩
      obtain ⟨k, hk, rfl⟩ := (mem_partitions _ _ _).mp hp
      exact Nat.lt_of_lt_of_le hin.2 (make_params_bounds L n k hn hL hk).2
  · intro j hj
    obtain ⟨k, hk, hin⟩ := partition_covers L n j hn hL hj
    refine ⟨k, ⟨hk, hin⟩, ?_⟩
    rintro k2 ⟨hk2, hin2⟩
    by_contra hne
    exact hdis k2 k hk2 hk hne j ⟨hin2, hin⟩

theorem partition_coverage_witness :
    1 ≤ 3 ∧ 10 < 2 ^ 64 ∧
    (partitions 10 3).Pairwise (fun p q => ∀ j, ¬ (in_range p j ∧ in_range q j)) ∧
    (∀ k1 k2, k1 < 3 → k2 < 3 → k1 ≠ k2 →
      ∀ j, ¬ (in_range (make_params 10 3 k1) j ∧ in_range (make_params 10 3 k2) j)) ∧
    (∀ j, j < 10 ↔ ∃ p ∈ partitions 10 3, in_range p j) ∧
    (∀ j, j < 10 → ∃! k, k < 3 ∧ in_range (make_params 10 3 k) j) :=
  ⟨by decide, by decide, partition_coverage 10 3 (by decide) (by decide)⟩

/-- C5: worker-count invariance. For any input, a configuration with a nonzero
modulus and any two worker counts `>= 1`, both runs of the pipeline return and
their output bytes are identical. -/
theorem pipeline_worker_count_invariant (junk1 junk2 junk3 junk4 : Nat → Nat)
    (config : prng_config) (hm : 0 < config.modulus) (n1 n2 : Nat) (hn1 : 1 ≤ n1)
    (hn2 : 1 ≤ n2) (input_data : List Nat) (hsize : input_data.length < 2 ^ 64) :
    ∃ output, pipeline junk1 junk2 config n1 input_data = some output ∧
      pipeline junk3 junk4 config n2 input_data = some output :=
  ⟨_, pipeline_eq junk1 junk2 config hm n1 hn1 input_data hsize,
    pipeline_eq junk3 junk4 config hm n2 hn2 input_data hsize⟩

theorem pipeline_worker_count_invariant_witness :
    0 < (prng_config.mk 7 5 3 251).modulus ∧ 1 ≤ 1 ∧ 1 ≤ 4 ∧ [9, 8, 7, 6, 5, 4].length < 2 ^ 64 ∧
    ∃ output,
      pipeline (fun _ => 1) (fun _ => 2) (prng_config.mk 7 5 3 251) 1 [9, 8, 7, 6, 5, 4]
        = some output ∧
      pipeline (fun _ => 3) (fun _ => 4) (prng_config.mk 7 5 3 251) 4 [9, 8, 7, 6, 5, 4]
        = some output :=
  ⟨by decide, by decide, by decide, by decide,
    pipeline_worker_count_invariant (fun _ => 1) (fun _ => 2) (fun _ => 3) (fun _ => 4) _
      (by decide) 1 4 (by decide) (by decide) [9, 8, 7, 6, 5, 4] (by decide)⟩

/-- C6: remainder fold. With `step = length / thread_count` and
`remainder = length % thread_count`, every worker `k` before the last is assigned
exactly `[k*step, (k+1)*step)`, of `step` bytes, and the last worker is assigned
`[(thread_count-1)*step, thread_count*step + remainder)`, whose upper end is the
length, of `step + remainder` bytes. -/
theorem remainder_fold (L n : Nat) (hn : 1 ≤ n) (hL : L < 2 ^ 64) :
    (∀ k, k + 1 < n →
      (make_params L n k).from_ = k * (L / n) ∧
      (make_params L n k).to_ = (k + 1) * (L / n) ∧
      (make_params L n k).to_ - (make_params L n k).from_ = L / n) ∧
    (make_params L n (n - 1)).from_ = (n - 1) * (L / n) ∧
    (make_params L n (n - 1)).to_ = n * (L / n) + L % n ∧
    (make_params L n (n - 1)).to_ = L ∧
    (make_params L n (n - 1)).to_ - (make_params L n (n - 1)).from_ = L / n + L % n := by
  have hlast := make_params_to_last L n hn hL
  have hfrom := make_params_from L n (n - 1) hL (by omega)
  refine ⟨?_, hfrom, hlast.1, hlast.2, ?_⟩
  · intro k hk
    have h1 := make_params_from L n k hL (by omega)
    have h2 := make_params_to_inner L n k hL hk
    refine ⟨h1, h2, ?_⟩
    rw [h1, h2, Nat.add_mul, Nat.one_mul, Nat.add_sub_cancel_left]
  · rw [hlast.1, hfrom]
    have h3 : n * (L / n) = (n - 1) * (L / n) + L / n := by
      rw [← Nat.succ_mul]
      congr 1
      omega
    rw [h3]
    generalize (n - 1) * (L / n) = a
    generalize L / n = d
    generalize L % n = r
    omega

theorem remainder_fold_witness :
    1 ≤ 3 ∧ 11 < 2 ^ 64 ∧
    (∀ k, k + 1 < 3 →
      (make_params 11 3 k).from_ = k * (11 / 3) ∧
      (make_params 11 3 k).to_ = (k + 1) * (11 / 3) ∧
      (make_params 11 3 k).to_ - (make_params 11 3 k).from_ = 11 / 3) ∧
    (make_params 11 3 (3 - 1)).from_ = (3 - 1) * (11 / 3) ∧
    (make_params 11 3 (3 - 1)).to_ = 3 * (11 / 3) + 11 % 3 ∧
    (make_params 11 3 (3 - 1)).to_ = 11 ∧
    (make_params 11 3 (3 - 1)).to_ - (make_params 11 3 (3 - 1)).from_ = 11 / 3 + 11 % 3 :=
  ⟨by decide, by decide, remainder_fold 11 3 (by decide) (by decide)⟩

theorem to_int_range (x : Int) : -2 ^ 31 ≤ to_int x ∧ to_int x < 2 ^ 31 := by
  unfold to_int
  omega

theorem to_int_of_range (x : Int) (h1 : -2 ^ 31 ≤ x) (h2 : x < 2 ^ 31) : to_int x = x := by
  unfold to_int
  omega

theorem detect_cores_eq (reported : Int) :
    detect_cores reported = if to_int reported < 1 then 1 else to_int reported := rfl

theorem detect_cores_toNat_pos (cores : Int) : 1 ≤ (detect_cores cores).toNat := by
  rw [detect_cores_eq]
  split <;> omega

theorem pad_alloc_zero (host : Host) : pad_alloc host 0 = [] := by
  unfold pad_alloc
  split <;> rfl

/-- The workers of main on empty buffers return the empty buffer. -/
theorem run_workers_empty (n : Nat) (hn : 1 ≤ n) :
    run_workers [] [] (partitions 0 n) [] = some [] := by
  have h := engine_spec (fun _ => 0) [] [] n rfl (by simp) hn
  simpa [malloc, xor_image] using h

/-- On an empty input file, with the checked allocations, the thread bookkeeping
and the output file succeeding and a thread count below the largest `int`, the
run of lines 97-184 exits with success and writes the empty buffer. -/
theorem main_run_empty (host : Host) (src dst : String) (gen_cfg : prng_config)
    (hfile : host.read_file src = some []) (h1 : host.malloc_buffer_ok = true)
    (h2 : host.malloc_result_ok = true) (h3 : host.malloc_workers_ok = true)
    (h4 : host.malloc_params_ok = true) (h5 : host.can_write dst = true)
    (hc : detect_cores host.cores < 2 ^ 31 - 1) :
    (main_run host src dst gen_cfg).status = Status.EXIT_SUCCESS ∧
      Event.fwrite_output [] ∈ (main_run host src dst gen_cfg).trace := by
  have hpos := detect_cores_toNat_pos host.cores
  have hne : (detect_cores host.cores).toNat ≠ 0 := by omega
  have hov : ¬ 2147483647 ≤ (detect_cores host.cores).toNat := by omega
  have hrun := run_workers_empty _ hpos
  simp [main_run, hfile, h1, h2, generate_pad, generate_pad_loop, pad_alloc_zero, main_workers,
    h3, h4, h5, hne, hov, malloc, hrun]

/-- C7: boundary safety. For every length and `thread_count >= 1`, every range
main computes satisfies `from <= to <= length`, so every index a worker touches is
below the length and the workers run without an access outside the buffers; for
length 0 every range is empty, the pipeline returns the empty buffer, and a run
of main on an empty file whose allocations succeed and whose thread count is
below the largest `int` exits with success after writing the empty buffer. -/
theorem partition_boundary_safety (L n : Nat) (hn : 1 ≤ n) (hL : L < 2 ^ 64) :
    (∀ k, k < n →
      (make_params L n k).from_ ≤ (make_params L n k).to_ ∧ (make_params L n k).to_ ≤ L) ∧
    (∀ k j, k < n → in_range (make_params L n k) j → j < L) ∧
    (∀ (junk : Nat → Nat) (input_data random_pad : List Nat),
      input_data.length = L → random_pad.length = L →
      ∃ output, run_workers input_data random_pad (partitions L n) (malloc junk L)
        = some output ∧ output.length = L) ∧
    (L = 0 → ∀ k, k < n → (make_params L n k).to_ - (make_params L n k).from_ = 0) ∧
    (∀ (junk_pad junk_result : Nat → Nat) (config : prng_config),
      pipeline junk_pad junk_result config n [] = some []) ∧
    (∀ (host : Host) (src dst : String) (gen_cfg : prng_config),
      host.read_file src = some [] → host.malloc_buffer_ok = true →
      host.malloc_result_ok = true → host.malloc_workers_ok = true →
      host.malloc_params_ok = true → host.can_write dst = true →
      detect_cores host.cores < 2 ^ 31 - 1 →
      (main_run host src dst gen_cfg).status = Status.EXIT_SUCCESS ∧
        Event.fwrite_output [] ∈ (main_run host src dst gen_cfg).trace) := by
  refine ⟨fun k hk => make_params_bounds L n k hn hL hk, ?_, ?_, ?_, ?_, main_run_empty⟩
  · intro k j hk hin
    exact Nat.lt_of_lt_of_le hin.2 (make_params_bounds L n k hn hL hk).2
  · intro junk input_data random_pad h1 h2
    subst h1
    exact ⟨_, engine_spec junk input_data random_pad n h2 hL hn, xor_image_length _ _⟩
  · intro h0 k hk
    have h := make_params_bounds L n k hn hL hk
    omega
  · intro junk_pad junk_result config
    have h := engine_spec junk_result [] [] n rfl (by simp) hn
    simpa [pipeline, generate_pad, generate_pad_loop, malloc, xor_image] using h

theorem partition_boundary_safety_witness :
    1 ≤ 5 ∧ 3 < 2 ^ 64 ∧
    (∀ k, k < 5 →
      (make_params 3 5 k).from_ ≤ (make_params 3 5 k).to_ ∧ (make_params 3 5 k).to_ ≤ 3) ∧
    (∀ k j, k < 5 → in_range (make_params 3 5 k) j → j < 3) ∧
    (∀ (junk : Nat → Nat) (input_data random_pad : List Nat),
      input_data.length = 3 → random_pad.length = 3 →
      ∃ output, run_workers input_data random_pad (partitions 3 5) (malloc junk 3)
        = some output ∧ output.length = 3) ∧
    (3 = 0 → ∀ k, k < 5 → (make_params 3 5 k).to_ - (make_params 3 5 k).from_ = 0) ∧
    (∀ (junk_pad junk_result : Nat → Nat) (config : prng_config),
      pipeline junk_pad junk_result config 5 [] = some []) ∧
    (∀ (host : Host) (src dst : String) (gen_cfg : prng_config),
      host.read_file src = some [] → host.malloc_buffer_ok = true →
      host.malloc_result_ok = true → host.malloc_workers_ok = true →
      host.malloc_params_ok = true → host.can_write dst = true →
      detect_cores host.cores < 2 ^ 31 - 1 →
      (main_run host src dst gen_cfg).status = Status.EXIT_SUCCESS ∧
        Event.fwrite_output [] ∈ (main_run host src dst gen_cfg).trace) :=
  ⟨by decide, by decide, partition_boundary_safety 3 5 (by decide) (by decide)⟩

theorem xor_image_zero_input (pad : List Nat) (hks : is_bytes pad) :
    xor_image (List.replicate pad.length 0) pad = pad := by
  apply List.ext_getElem?
  intro j
  by_cases hj : j < pad.length
  · rw [xor_image_getElem? _ _ j (by simpa using hj),
      xor_at_eq _ pad j 0 pad[j] (by simp [List.getElem?_replicate, hj])
        (List.getElem?_eq_getElem hj),
      Nat.zero_xor, to_uchar_of_lt _ (is_bytes_getElem _ hks j hj), List.getElem?_eq_getElem hj]
  · rw [List.getElem?_eq_none (by simp [xor_image]; omega), List.getElem?_eq_none (by omega)]

/-- C8: for a configuration with a nonzero modulus, any length `L` and
`thread_count >= 1`, the pipeline on the all-zero input of length `L` outputs
exactly the pad `generate_pad` produces; for initial 1, multiplier 1103515245,
increment 12345, modulus 2147483648 the first four values are 1103527590,
377401575, 662824084, 1147902781 and the output for four zero bytes is
`[0xA6, 0xE7, 0x94, 0x3D]`. -/
theorem pipeline_zero_input (junk_pad junk_result : Nat → Nat) (config : prng_config)
    (hm : 0 < config.modulus) (L : Nat) (hL : L < 2 ^ 64) (n : Nat) (hn : 1 ≤ n) :
    (∃ keystream, generate_pad (malloc junk_pad) config L = some keystream ∧
      keystream.length = L ∧
      pipeline junk_pad junk_result config n (List.replicate L 0) = some keystream) ∧
    (lcg_step (prng_config.mk 1 1103515245 12345 2147483648) 1 = 1103527590 ∧
      lcg_step (prng_config.mk 1 1103515245 12345 2147483648) 1103527590 = 377401575 ∧
      lcg_step (prng_config.mk 1 1103515245 12345 2147483648) 377401575 = 662824084 ∧
      lcg_step (prng_config.mk 1 1103515245 12345 2147483648) 662824084 = 1147902781 ∧
      [1103527590 % 256, 377401575 % 256, 662824084 % 256, 1147902781 % 256]
        = [0xA6, 0xE7, 0x94, 0x3D] ∧
      pipeline junk_pad junk_result (prng_config.mk 1 1103515245 12345 2147483648) n
        [0x00, 0x00, 0x00, 0x00] = some [0xA6, 0xE7, 0x94, 0x3D]) := by
  refine ⟨⟨spec_keystream config L, generate_pad_eq_spec_keystream junk_pad config hm L,
    spec_keystream_length config L, ?_⟩, by decide, by decide, by decide, by decide,
    by decide, ?_⟩
  · have h := pipeline_eq junk_pad junk_result config hm n hn (List.replicate L 0)
      (by simpa using hL)
    rw [h, List.length_replicate]
    have hz := xor_image_zero_input (spec_keystream config L) (spec_keystream_is_bytes _ _)
    rw [spec_keystream_length] at hz
    rw [hz]
  · rw [pipeline_eq junk_pad junk_result _ (by decide) n hn _ (by decide)]
    decide

theorem pipeline_zero_input_witness :
    0 < (prng_config.mk 3 5 7 200).modulus ∧ 6 < 2 ^ 64 ∧ 1 ≤ 4 ∧
    ((∃ keystream,
      generate_pad (malloc (fun _ => 1)) (prng_config.mk 3 5 7 200) 6 = some keystream ∧
      keystream.length = 6 ∧
      pipeline (fun _ => 1) (fun _ => 2) (prng_config.mk 3 5 7 200) 4 (List.replicate 6 0)
        = some keystream) ∧
    (lcg_step (prng_config.mk 1 1103515245 12345 2147483648) 1 = 1103527590 ∧
      lcg_step (prng_config.mk 1 1103515245 12345 2147483648) 1103527590 = 377401575 ∧
      lcg_step (prng_config.mk 1 1103515245 12345 2147483648) 377401575 = 662824084 ∧
      lcg_step (prng_config.mk 1 1103515245 12345 2147483648) 662824084 = 1147902781 ∧
      [1103527590 % 256, 377401575 % 256, 662824084 % 256, 1147902781 % 256]
        = [0xA6, 0xE7, 0x94, 0x3D] ∧
      pipeline (fun _ => 1) (fun _ => 2) (prng_config.mk 1 1103515245 12345 2147483648) 4
        [0x00, 0x00, 0x00, 0x00] = some [0xA6, 0xE7, 0x94, 0x3D])) :=
  ⟨by decide, by decide, by decide,
    pipeline_zero_input (fun _ => 1) (fun _ => 2) _ (by decide) 6 (by decide) 4 (by decide)⟩

/-- C9: for a configuration with a nonzero modulus and any length `L`, the
generator returns exactly `L` bytes, and the bytes are the same for every
generation with that configuration and length, whatever the allocated block held:
the pad is a function of the configuration and the length only. -/
theorem generate_pad_deterministic (config : prng_config) (hm : 0 < config.modulus)
    (L : Nat) :
    ∃ keystream, keystream.length = L ∧
      ∀ junk : Nat → Nat, generate_pad (malloc junk) config L = some keystream :=
  ⟨spec_keystream config L, spec_keystream_length config L,
    fun junk => generate_pad_eq_spec_keystream junk config hm L⟩

theorem generate_pad_deterministic_witness :
    0 < (prng_config.mk 3 5 7 200).modulus ∧
    ∃ keystream, keystream.length = 6 ∧
      ∀ junk : Nat → Nat,
        generate_pad (malloc junk) (prng_config.mk 3 5 7 200) 6 = some keystream :=
  ⟨by decide, generate_pad_deterministic _ (by decide) 6⟩

/-! ## main: argument validation -/

theorem getopt_case_modulus (strtoul : String → Nat) (a b : cli_args) (opt : Char)
    (optarg : String) (hopt : opt ≠ 'm') (h : getopt_case strtoul a opt optarg = some b) :
    b.gen_cfg.modulus = a.gen_cfg.modulus := by
  unfold getopt_case at h
  split_ifs at h <;> (injection h with h; subst h; rfl)

theorem getopt_case_m (strtoul : String → Nat) (a b : cli_args) (optarg : String)
    (h : getopt_case strtoul a 'm' optarg = some b) :
    b.gen_cfg.modulus = strtoul optarg := by
  have h2 : getopt_case strtoul a 'm' optarg
      = some { a with gen_cfg := { a.gen_cfg with modulus := strtoul optarg } } := by
    simp [getopt_case]
  rw [h2] at h
  injection h with h
  subst h
  rfl

/-- Without an option `-m` the loop leaves the modulus as it was. -/
theorem getopt_loop_modulus_absent (strtoul : String → Nat) :
    ∀ (argv : List (Char × String)) (a b : cli_args),
      (∀ optarg, ('m', optarg) ∉ argv) → getopt_loop strtoul argv a = some b →
      b.gen_cfg.modulus = a.gen_cfg.modulus := by
  intro argv
  induction argv with
  | nil =>
    intro a b _ h
    simp only [getopt_loop] at h
    injection h with h
    rw [h]
  | cons o rest ih =>
    intro a b hno h
    obtain ⟨opt, optarg⟩ := o
    simp only [getopt_loop] at h
    cases hc : getopt_case strtoul a opt optarg with
    | none => rw [hc] at h; contradiction
    | some c =>
      rw [hc] at h
      have hopt : opt ≠ 'm' := by
        intro he
        exact hno optarg (by rw [he]; exact List.mem_cons_self _ _)
      rw [ih c b (fun s hs => hno s (List.mem_cons_of_mem _ hs)) h,
        getopt_case_modulus strtoul a c opt optarg hopt hc]

/-- After a last option `-m` the modulus is what `strtoul` made of its argument. -/
theorem getopt_loop_modulus_last (strtoul : String → Nat) :
    ∀ (pre : List (Char × String)) (optarg : String) (post : List (Char × String))
      (a b : cli_args), (∀ s, ('m', s) ∉ post) →
      getopt_loop strtoul (pre ++ ('m', optarg) :: post) a = some b →
      b.gen_cfg.modulus = strtoul optarg := by
  intro pre
  induction pre with
  | nil =>
    intro optarg post a b hno h
    simp only [List.nil_append, getopt_loop] at h
    cases hc : getopt_case strtoul a 'm' optarg with
    | none => rw [hc] at h; contradiction
    | some c =>
      rw [hc] at h
      rw [getopt_loop_modulus_absent strtoul post c b hno h, getopt_case_m strtoul a c optarg hc]
  | cons o pre ih =>
    intro optarg post a b hno h
    obtain ⟨opt, arg⟩ := o
    simp only [List.cons_append, getopt_loop] at h
    cases hc : getopt_case strtoul a opt arg with
    | none => rw [hc] at h; contradiction
    | some c =>
      rw [hc] at h
      exact ih optarg post c b hno h

/-- A run whose parsed modulus is zero, or whose options do not parse, fails at
line 88 or 94 having done nothing but print one message. -/
theorem main_zero_modulus (host : Host) (argv : List (Char × String))
    (h : ∀ a, getopt_loop host.strtoul argv cli_args.init = some a → a.gen_cfg.modulus = 0) :
    (main host argv).status = Status.EXIT_FAILURE ∧
      ((main host argv).trace = [Event.usage_message] ∨
        (main host argv).trace = [Event.arguments_message]) := by
  unfold main
  cases hg : getopt_loop host.strtoul argv cli_args.init with
  | none => exact ⟨rfl, Or.inl rfl⟩
  | some a =>
    have hz := h a hg
    simp only [hz, if_true]
    split <;> exact ⟨rfl, Or.inr rfl⟩

theorem main_workers_trace (host : Host) (dst : String)
    (input_data random_pad result_data : List Nat) (trace : List Event)
    (config : prng_config) (length : Nat)
    (h : Event.generate_pad_call config length
      ∈ (main_workers host dst input_data random_pad result_data trace).trace) :
    Event.generate_pad_call config length ∈ trace := by
  unfold main_workers at h
  simp only [] at h
  split at h
  · exact h
  · split at h
    · simpa using h
    · split at h
      · simpa using h
      · split at h
        · simpa using h
        · split at h <;> simpa using h

theorem main_run_trace (host : Host) (src dst : String) (gen_cfg config : prng_config)
    (length : Nat)
    (h : Event.generate_pad_call config length ∈ (main_run host src dst gen_cfg).trace) :
    config = gen_cfg := by
  unfold main_run at h
  split at h
  · simp at h
  · simp only [] at h
    split at h
    · simp at h
    · split at h
      · simp at h
      · split at h
        · simp at h
          exact h.1
        · have h2 := main_workers_trace _ _ _ _ _ _ _ _ h
          simp at h2
          exact h2.1

/-- C10: a run whose configuration has modulus zero, whether because no `-m` is
given or because the last `-m` is given as 0, ends with a failure status at the
argument check, its only step being the diagnostic: the input file is not opened,
no buffer is allocated and `generate_pad` is not called. Hence every call of
`generate_pad` in any run has a nonzero modulus and line 40 never divides by
zero. -/
theorem main_rejects_zero_modulus (host : Host) (argv : List (Char × String)) :
    ((∀ a, getopt_loop host.strtoul argv cli_args.init = some a → a.gen_cfg.modulus = 0) →
      (main host argv).status = Status.EXIT_FAILURE ∧
      ((main host argv).trace = [Event.usage_message] ∨
        (main host argv).trace = [Event.arguments_message])) ∧
    ((∀ optarg, ('m', optarg) ∉ argv) →
      (main host argv).status = Status.EXIT_FAILURE ∧
      ((main host argv).trace = [Event.usage_message] ∨
        (main host argv).trace = [Event.arguments_message])) ∧
    (∀ pre optarg post, argv = pre ++ ('m', optarg) :: post → (∀ s, ('m', s) ∉ post) →
      host.strtoul optarg = 0 →
      (main host argv).status = Status.EXIT_FAILURE ∧
      ((main host argv).trace = [Event.usage_message] ∨
        (main host argv).trace = [Event.arguments_message])) ∧
    (∀ config length, Event.generate_pad_call config length ∈ (main host argv).trace →
      0 < config.modulus ∧ ∀ value, next_value config value = some (lcg_step config value)) := by
  refine ⟨main_zero_modulus host argv, ?_, ?_, ?_⟩
  · intro hno
    apply main_zero_modulus
    intro a ha
    rw [getopt_loop_modulus_absent host.strtoul argv cli_args.init a hno ha]
    rfl
  · intro pre optarg post hargv hno hzero
    apply main_zero_modulus
    intro a ha
    rw [hargv] at ha
    rw [getopt_loop_modulus_last host.strtoul pre optarg post cli_args.init a hno ha, hzero]
  · intro config length hmem
    have hpos : 0 < config.modulus := by
      unfold main at hmem
      split at hmem
      · simp at hmem
      · split at hmem
        · split at hmem
          · simp at hmem
          · rename_i hne
            rw [main_run_trace _ _ _ _ _ _ hmem]
            exact Nat.pos_of_ne_zero hne
        · simp at hmem
    refine ⟨hpos, fun value => ?_⟩
    simp [next_value, Nat.pos_iff_ne_zero.mp hpos]

theorem main_rejects_zero_modulus_witness :
    ((main sample_host [('i', "in"), ('o', "out"), ('x', "5")]).status = Status.EXIT_FAILURE ∧
      ((main sample_host [('i', "in"), ('o', "out"), ('x', "5")]).trace
          = [Event.usage_message] ∨
        (main sample_host [('i', "in"), ('o', "out"), ('x', "5")]).trace
          = [Event.arguments_message])) ∧
    ((main sample_host [('i', "in"), ('m', "5"), ('o', "out"), ('m', "0")]).status
        = Status.EXIT_FAILURE ∧
      ((main sample_host [('i', "in"), ('m', "5"), ('o', "out"), ('m', "0")]).trace
          = [Event.usage_message] ∨
        (main sample_host [('i', "in"), ('m', "5"), ('o', "out"), ('m', "0")]).trace
          = [Event.arguments_message])) ∧
    (Event.generate_pad_call (prng_config.mk 0 0 0 5) 5
        ∈ (main sample_host [('i', "in"), ('o', "out"), ('m', "5")]).trace ∧
      0 < (prng_config.mk 0 0 0 5).modulus ∧
      ∀ value, next_value (prng_config.mk 0 0 0 5) value
        = some (lcg_step (prng_config.mk 0 0 0 5) value)) :=
  ⟨(main_rejects_zero_modulus sample_host [('i', "in"), ('o', "out"), ('x', "5")]).2.1
      (by simp),
    (main_rejects_zero_modulus sample_host
        [('i', "in"), ('m', "5"), ('o', "out"), ('m', "0")]).2.2.1
      [('i', "in"), ('m', "5"), ('o', "out")] "0" [] rfl (by simp) (by decide),
    by decide,
    (main_rejects_zero_modulus sample_host [('i', "in"), ('o', "out"), ('m', "5")]).2.2.2
      (prng_config.mk 0 0 0 5) 5 (by decide)⟩

/-! ## main: presence of the seed parameters -/

/-- An option other than `c` leaves a field alone when `getopt_case` does. -/
theorem getopt_loop_field_absent (strtoul : String → Nat) (f : cli_args → Nat) (c : Char)
    (hcase : ∀ a b opt optarg, opt ≠ c → getopt_case strtoul a opt optarg = some b →
      f b = f a) :
    ∀ (argv : List (Char × String)) (a b : cli_args),
      (∀ optarg, (c, optarg) ∉ argv) → getopt_loop strtoul argv a = some b → f b = f a := by
  intro argv
  induction argv with
  | nil =>
    intro a b _ h
    simp only [getopt_loop] at h
    injection h with h
    rw [h]
  | cons o rest ih =>
    intro a b hno h
    obtain ⟨opt, optarg⟩ := o
    simp only [getopt_loop] at h
    cases hc : getopt_case strtoul a opt optarg with
    | none => rw [hc] at h; contradiction
    | some d =>
      rw [hc] at h
      have hopt : opt ≠ c := by
        intro he
        exact hno optarg (by rw [he]; exact List.mem_cons_self _ _)
      rw [ih d b (fun s hs => hno s (List.mem_cons_of_mem _ hs)) h, hcase a d opt optarg hopt hc]

theorem getopt_case_initial (strtoul : String → Nat) (a b : cli_args) (opt : Char)
    (optarg : String) (hopt : opt ≠ 'x') (h : getopt_case strtoul a opt optarg = some b) :
    b.gen_cfg.initial = a.gen_cfg.initial := by
  unfold getopt_case at h
  split_ifs at h <;> (injection h with h; subst h; rfl)

theorem getopt_case_multiplier (strtoul : String → Nat) (a b : cli_args) (opt : Char)
    (optarg : String) (hopt : opt ≠ 'a') (h : getopt_case strtoul a opt optarg = some b) :
    b.gen_cfg.multiplier = a.gen_cfg.multiplier := by
  unfold getopt_case at h
  split_ifs at h <;> (injection h with h; subst h; rfl)

theorem getopt_case_increment (strtoul : String → Nat) (a b : cli_args) (opt : Char)
    (optarg : String) (hopt : opt ≠ 'c') (h : getopt_case strtoul a opt optarg = some b) :
    b.gen_cfg.increment = a.gen_cfg.increment := by
  unfold getopt_case at h
  split_ifs at h <;> (injection h with h; subst h; rfl)

/-- Past line 92 with both paths and a nonzero modulus, `main` continues with the
parsed configuration. -/
theorem main_accepts (host : Host) (argv : List (Char × String)) (a : cli_args)
    (src dst : String) (hg : getopt_loop host.strtoul argv cli_args.init = some a)
    (hs : a.src = some src) (hd : a.dst = some dst) (hm : a.gen_cfg.modulus ≠ 0) :
    main host argv = main_run host src dst a.gen_cfg := by
  unfold main
  rw [hg]
  simp only [hs, hd, hm, if_false]

/-- C11, counterexample: a run with `-i`, `-o` and `-m 5` but without `-x`, `-a`
and `-c` is not rejected: it exits with success after calling `generate_pad`
with the configuration 0, 0, 0, 5. -/
theorem main_runs_without_seed_options :
    (∀ s, ('x', s) ∉ [('i', "in"), ('o', "out"), ('m', "5")]) ∧
    (∀ s, ('a', s) ∉ [('i', "in"), ('o', "out"), ('m', "5")]) ∧
    (∀ s, ('c', s) ∉ [('i', "in"), ('o', "out"), ('m', "5")]) ∧
    (main sample_host [('i', "in"), ('o', "out"), ('m', "5")]).status ≠ Status.EXIT_FAILURE ∧
    (main sample_host [('i', "in"), ('o', "out"), ('m', "5")]).status = Status.EXIT_SUCCESS ∧
    Event.generate_pad_call (prng_config.mk 0 0 0 5) 5
      ∈ (main sample_host [('i', "in"), ('o', "out"), ('m', "5")]).trace :=
  ⟨by simp, by simp, by simp, by decide, by decide, by decide⟩

/-- C11, amended: of the four seed parameters main validates the modulus only. A
run without `-m` ends with a failure status at the argument check, before the
core is invoked. A run whose options give both paths and a nonzero modulus goes
on to lines 97-184 with the parsed configuration, whether or not `-x`, `-a` and
`-c` are present; the field of an absent one is 0. -/
theorem main_validates_modulus_only (host : Host) (argv : List (Char × String)) :
    ((∀ s, ('m', s) ∉ argv) →
      (main host argv).status = Status.EXIT_FAILURE ∧
      ((main host argv).trace = [Event.usage_message] ∨
        (main host argv).trace = [Event.arguments_message])) ∧
    (∀ a src dst, getopt_loop host.strtoul argv cli_args.init = some a →
      a.src = some src → a.dst = some dst → a.gen_cfg.modulus ≠ 0 →
      main host argv = main_run host src dst a.gen_cfg ∧
      ((∀ s, ('x', s) ∉ argv) → a.gen_cfg.initial = 0) ∧
      ((∀ s, ('a', s) ∉ argv) → a.gen_cfg.multiplier = 0) ∧
      ((∀ s, ('c', s) ∉ argv) → a.gen_cfg.increment = 0)) := by
  refine ⟨?_, ?_⟩
  · intro hno
    apply main_zero_modulus
    intro a ha
    rw [getopt_loop_modulus_absent host.strtoul argv cli_args.init a hno ha]
    rfl
  · intro a src dst hg hs hd hm
    refine ⟨main_accepts host argv a src dst hg hs hd hm, ?_, ?_, ?_⟩
    · intro hno
      exact getopt_loop_field_absent host.strtoul (fun a => a.gen_cfg.initial) 'x'
        (getopt_case_initial host.strtoul) argv cli_args.init a hno hg
    · intro hno
      exact getopt_loop_field_absent host.strtoul (fun a => a.gen_cfg.multiplier) 'a'
        (getopt_case_multiplier host.strtoul) argv cli_args.init a hno hg
    · intro hno
      exact getopt_loop_field_absent host.strtoul (fun a => a.gen_cfg.increment) 'c'
        (getopt_case_increment host.strtoul) argv cli_args.init a hno hg

theorem main_validates_modulus_only_witness :
    ((main sample_host [('i', "in"), ('o', "out"), ('x', "5")]).status = Status.EXIT_FAILURE ∧
      ((main sample_host [('i', "in"), ('o', "out"), ('x', "5")]).trace
          = [Event.usage_message] ∨
        (main sample_host [('i', "in"), ('o', "out"), ('x', "5")]).trace
          = [Event.arguments_message])) ∧
    (main sample_host [('i', "in"), ('o', "out"), ('m', "5")]
        = main_run sample_host "in" "out" (prng_config.mk 0 0 0 5) ∧
      ((∀ s, ('x', s) ∉ [('i', "in"), ('o', "out"), ('m', "5")]) →
        (prng_config.mk 0 0 0 5).initial = 0) ∧
      ((∀ s, ('a', s) ∉ [('i', "in"), ('o', "out"), ('m', "5")]) →
        (prng_config.mk 0 0 0 5).multiplier = 0) ∧
      ((∀ s, ('c', s) ∉ [('i', "in"), ('o', "out"), ('m', "5")]) →
        (prng_config.mk 0 0 0 5).increment = 0)) :=
  ⟨(main_validates_modulus_only sample_host [('i', "in"), ('o', "out"), ('x', "5")]).1
      (by simp),
    (main_validates_modulus_only sample_host [('i', "in"), ('o', "out"), ('m', "5")]).2
      ⟨some "in", some "out", prng_config.mk 0 0 0 5⟩ "in" "out" rfl rfl rfl
      (by decide)⟩

/-! ## Wrapping against exact arithmetic -/

/-- C12: there are a configuration with a nonzero modulus and a length for which
the pad of `generate_pad` differs from the keystream of the same recurrence in
exact arithmetic: for initial `2^63`, multiplier 2, increment 1, modulus 3 and
length 1 the code gives `[1]` and exact arithmetic gives `[2]`. -/
theorem wrapping_differs_from_exact :
    (∃ (config : prng_config) (L : Nat), 0 < config.modulus ∧
      ∀ junk : Nat → Nat,
        generate_pad (malloc junk) config L ≠ some (exact_keystream config L)) ∧
    0 < (prng_config.mk (2 ^ 63) 2 1 3).modulus ∧
    (∀ junk : Nat → Nat,
      generate_pad (malloc junk) (prng_config.mk (2 ^ 63) 2 1 3) 1 = some [1]) ∧
    exact_keystream (prng_config.mk (2 ^ 63) 2 1 3) 1 = [2] := by
  have hcode : ∀ junk : Nat → Nat,
      generate_pad (malloc junk) (prng_config.mk (2 ^ 63) 2 1 3) 1 = some [1] := by
    intro junk
    rw [generate_pad_eq_spec_keystream junk _ (by decide) 1]
    decide
  have hexact : exact_keystream (prng_config.mk (2 ^ 63) 2 1 3) 1 = [2] := by decide
  refine ⟨⟨prng_config.mk (2 ^ 63) 2 1 3, 1, by decide, ?_⟩, by decide, hcode, hexact⟩
  intro junk
  rw [hcode junk, hexact]
  decide

/-! ## main: allocation failures -/

/-- With the block of line 36 missing, the first write of line 41 is outside any
buffer: `generate_pad` on a nonzero length does not return. -/
theorem generate_pad_null (config : prng_config) (n : Nat) :
    generate_pad (fun _ => []) config (n + 1) = none := by
  unfold generate_pad generate_pad_loop
  cases next_value config config.initial <;> simp

/-- When the allocation of line 36 fails on a non-empty file, the run of lines
97-184 ends in undefined behaviour right after calling `generate_pad`. -/
theorem main_run_pad_alloc_fails (host : Host) (src dst : String) (gen_cfg : prng_config)
    (b : Nat) (buffer : List Nat) (hfile : host.read_file src = some (b :: buffer))
    (h1 : host.malloc_buffer_ok = true) (h2 : host.malloc_result_ok = true)
    (h3 : host.malloc_pad_ok = false) :
    main_run host src dst gen_cfg
      = ⟨Status.undefined_behaviour,
          [Event.fopen_input src, Event.malloc_buffer (buffer.length + 1),
            Event.malloc_result (buffer.length + 1),
            Event.generate_pad_call gen_cfg (buffer.length + 1)]⟩ := by
  have hp : pad_alloc host = fun _ => [] := by simp [pad_alloc, h3]
  simp [main_run, hfile, h1, h2, hp, generate_pad_null]

/-- C13, the code at the failing input: with the allocation of line 36 failing on
a five-byte file, main neither detects the failure nor ends with a failure
status; the run is undefined at the first write through the missing block. The
sibling allocations of lines 107 and 121 are checked and end the run with a
failure status before any worker is started. -/
theorem main_pad_allocation_unchecked :
    (main sample_host_pad_fails [('i', "in"), ('o', "out"), ('m', "5")]).status
      = Status.undefined_behaviour ∧
    (main sample_host_pad_fails [('i', "in"), ('o', "out"), ('m', "5")]).status
      ≠ Status.EXIT_FAILURE ∧
    (main sample_host_pad_fails [('i', "in"), ('o', "out"), ('m', "5")]).trace
      = [Event.fopen_input "in", Event.malloc_buffer 5, Event.malloc_result 5,
          Event.generate_pad_call (prng_config.mk 0 0 0 5) 5] ∧
    generate_pad (pad_alloc sample_host_pad_fails) (prng_config.mk 0 0 0 5) 5 = none ∧
    (∀ (host : Host) (src dst : String) (gen_cfg : prng_config) (b : Nat) (buffer : List Nat),
      host.read_file src = some (b :: buffer) → host.malloc_buffer_ok = true →
      host.malloc_result_ok = true → host.malloc_pad_ok = false →
      (main_run host src dst gen_cfg).status = Status.undefined_behaviour) ∧
    (main sample_host_buffer_fails [('i', "in"), ('o', "out"), ('m', "5")]).status
      = Status.EXIT_FAILURE ∧
    (main sample_host_buffer_fails [('i', "in"), ('o', "out"), ('m', "5")]).trace
      = [Event.fopen_input "in", Event.malloc_buffer 5, Event.buffer_error] ∧
    (main sample_host_result_fails [('i', "in"), ('o', "out"), ('m', "5")]).status
      = Status.EXIT_FAILURE ∧
    (main sample_host_result_fails [('i', "in"), ('o', "out"), ('m', "5")]).trace
      = [Event.fopen_input "in", Event.malloc_buffer 5, Event.malloc_result 5,
          Event.result_error] := by
  refine ⟨by decide, by decide, by decide, by decide, ?_, by decide, by decide, by decide,
    by decide⟩
  intro host src dst gen_cfg b buffer hfile h1 h2 h3
  rw [main_run_pad_alloc_fails host src dst gen_cfg b buffer hfile h1 h2 h3]

/-! ## Order of the workers and frame of a worker -/

/-- Two lists of in-bounds workers that cover the same indices leave the same
`result_data`. -/
theorem run_workers_same_cover (input_data random_pad : List Nat) (L : Nat)
    (h1 : input_data.length = L) (h2 : random_pad.length = L)
    (ps qs : List thread_params) (result_data : List Nat) (h3 : result_data.length = L)
    (hps : ∀ p ∈ ps, p.from_ ≤ p.to_ ∧ p.to_ ≤ L)
    (hqs : ∀ q ∈ qs, q.from_ ≤ q.to_ ∧ q.to_ ≤ L)
    (hcov : ∀ j, (∃ p ∈ ps, in_range p j) ↔ (∃ q ∈ qs, in_range q j)) :
    run_workers input_data random_pad ps result_data
      = run_workers input_data random_pad qs result_data := by
  obtain ⟨o1, ho1, hl1, hw1, hf1⟩ :=
    run_workers_spec input_data random_pad L h1 h2 ps result_data h3 hps
  obtain ⟨o2, ho2, hl2, hw2, hf2⟩ :=
    run_workers_spec input_data random_pad L h1 h2 qs result_data h3 hqs
  rw [ho1, ho2]
  congr 1
  apply List.ext_getElem?
  intro j
  by_cases hj : ∃ p ∈ ps, in_range p j
  · rw [hw1 j hj, hw2 j ((hcov j).mp hj)]
  · rw [hf1 j hj, hf2 j (fun h => hj ((hcov j).mpr h))]

/-- Two workers run one after another. -/
theorem run_workers_pair (input_data random_pad : List Nat) (p q : thread_params)
    (result_data : List Nat) :
    run_workers input_data random_pad [p, q] result_data
      = (xor_worker input_data random_pad p result_data).bind
          (xor_worker input_data random_pad q) := by
  simp only [run_workers]
  cases xor_worker input_data random_pad p result_data with
  | none => rfl
  | some r =>
    simp only [Option.bind]
    cases xor_worker input_data random_pad q r <;> rfl

/-- The workers main creates, run on any `result_data` of the buffer length, leave
`xor_image` in it. -/
theorem engine_spec_any (input_data random_pad result_data : List Nat) (n : Nat)
    (hlen : random_pad.length = input_data.length)
    (hres : result_data.length = input_data.length)
    (hsize : input_data.length < 2 ^ 64) (hn : 1 ≤ n) :
    run_workers input_data random_pad (partitions input_data.length n) result_data
      = some (xor_image input_data random_pad) := by
  obtain ⟨out, hout, hl, hw, _⟩ :=
    run_workers_spec input_data random_pad input_data.length rfl hlen
      (partitions input_data.length n) result_data hres
      (by
        intro p hp
        obtain ⟨k, hk, rfl⟩ := (mem_partitions _ _ _).mp hp
        exact make_params_bounds _ n k hn hsize hk)
  rw [hout]
  congr 1
  apply List.ext_getElem?
  intro j
  by_cases hj : j < input_data.length
  · obtain ⟨k, hk, hin⟩ := partition_covers input_data.length n j hn hsize hj
    rw [hw j ⟨_, (mem_partitions _ _ _).mpr ⟨k, hk, rfl⟩, hin⟩, xor_image_getElem? _ _ j hj]
  · rw [List.getElem?_eq_none (by omega), List.getElem?_eq_none (by simp [xor_image]; omega)]

/-- C15: scheduling-order independence. For buffers of one length and
`thread_count >= 1`, running the workers main creates one after another in any
order (any permutation of the list of their parameters) returns, and leaves the
same output buffer as running them in creation order; and the effects of any two
of these workers on the output buffer commute. -/
theorem workers_order_independent (input_data keystream result_data : List Nat) (L n : Nat)
    (h1 : input_data.length = L) (h2 : keystream.length = L) (h3 : result_data.length = L)
    (hL : L < 2 ^ 64) (hn : 1 ≤ n) :
    (∀ ps : List thread_params, ps.Perm (partitions L n) →
      run_workers input_data keystream ps result_data
        = run_workers input_data keystream (partitions L n) result_data ∧
      run_workers input_data keystream ps result_data
        = some (xor_image input_data keystream)) ∧
    (∀ k1 k2, k1 < n → k2 < n →
      (xor_worker input_data keystream (make_params L n k1) result_data).bind
          (xor_worker input_data keystream (make_params L n k2))
        = (xor_worker input_data keystream (make_params L n k2) result_data).bind
          (xor_worker input_data keystream (make_params L n k1))) := by
  have hb : ∀ p ∈ partitions L n, p.from_ ≤ p.to_ ∧ p.to_ ≤ L := by
    intro p hp
    obtain ⟨k, hk, rfl⟩ := (mem_partitions _ _ _).mp hp
    exact make_params_bounds L n k hn hL hk
  refine ⟨?_, ?_⟩
  · intro ps hperm
    have heq : run_workers input_data keystream ps result_data
        = run_workers input_data keystream (partitions L n) result_data :=
      run_workers_same_cover input_data keystream L h1 h2 ps (partitions L n) result_data h3
        (fun p hp => hb p (hperm.mem_iff.mp hp)) hb
        (fun j => ⟨fun ⟨p, hp, hj⟩ => ⟨p, hperm.mem_iff.mp hp, hj⟩,
          fun ⟨p, hp, hj⟩ => ⟨p, hperm.mem_iff.mpr hp, hj⟩⟩)
    refine ⟨heq, ?_⟩
    rw [heq]
    subst h1
    exact engine_spec_any input_data keystream result_data n h2 h3 hL hn
  · intro k1 k2 hk1 hk2
    rw [← run_workers_pair, ← run_workers_pair]
    have hb1 := make_params_bounds L n k1 hn hL hk1
    have hb2 := make_params_bounds L n k2 hn hL hk2
    apply run_workers_same_cover input_data keystream L h1 h2 _ _ result_data h3
    · intro p hp
      simp only [List.mem_cons, List.mem_singleton, List.not_mem_nil, or_false] at hp
      rcases hp with rfl | rfl
      · exact hb1
      · exact hb2
    · intro p hp
      simp only [List.mem_cons, List.mem_singleton, List.not_mem_nil, or_false] at hp
      rcases hp with rfl | rfl
      · exact hb2
      · exact hb1
    · intro j
      simp only [List.mem_cons, List.mem_singleton, List.not_mem_nil, or_false,
        exists_eq_or_imp, exists_eq_left]
      exact Or.comm

theorem workers_order_independent_witness :
    [1, 2, 3, 4, 5].length = 5 ∧ [9, 8, 7, 6, 5].length = 5 ∧ [0, 0, 0, 0, 0].length = 5 ∧
    5 < 2 ^ 64 ∧ 1 ≤ 3 ∧
    (∀ ps : List thread_params, ps.Perm (partitions 5 3) →
      run_workers [1, 2, 3, 4, 5] [9, 8, 7, 6, 5] ps [0, 0, 0, 0, 0]
        = run_workers [1, 2, 3, 4, 5] [9, 8, 7, 6, 5] (partitions 5 3) [0, 0, 0, 0, 0] ∧
      run_workers [1, 2, 3, 4, 5] [9, 8, 7, 6, 5] ps [0, 0, 0, 0, 0]
        = some (xor_image [1, 2, 3, 4, 5] [9, 8, 7, 6, 5])) ∧
    (∀ k1 k2, k1 < 3 → k2 < 3 →
      (xor_worker [1, 2, 3, 4, 5] [9, 8, 7, 6, 5] (make_params 5 3 k1) [0, 0, 0, 0, 0]).bind
          (xor_worker [1, 2, 3, 4, 5] [9, 8, 7, 6, 5] (make_params 5 3 k2))
        = (xor_worker [1, 2, 3, 4, 5] [9, 8, 7, 6, 5] (make_params 5 3 k2)
            [0, 0, 0, 0, 0]).bind
          (xor_worker [1, 2, 3, 4, 5] [9, 8, 7, 6, 5] (make_params 5 3 k1))) :=
  ⟨rfl, rfl, rfl, by decide, by decide,
    workers_order_independent [1, 2, 3, 4, 5] [9, 8, 7, 6, 5] [0, 0, 0, 0, 0] 5 3 rfl rfl rfl
      (by decide) (by decide)⟩

/-- C16: frame of a worker. For a range with `from <= to <= length` on buffers of
that length, `xor_worker` returns; the output buffer differs from before only at
indices `i` with `from <= i < to`, where it holds the XOR byte, every output byte
outside the range is unchanged, and the input, the keystream and the other
fields of the shared record are unchanged. -/
theorem xor_worker_frame (data : shared_data) (params : thread_params)
    (h1 : data.input_data.length = data.length) (h2 : data.random_pad.length = data.length)
    (h3 : data.result_data.length = data.length)
    (hft : params.from_ ≤ params.to_) (htl : params.to_ ≤ data.length) :
    ∃ after, xor_worker_shared params data = some after ∧
      after.input_data = data.input_data ∧
      after.random_pad = data.random_pad ∧
      after.length = data.length ∧ after.config = data.config ∧
      after.thread_count = data.thread_count ∧
      after.result_data.length = data.result_data.length ∧
      (∀ j, after.result_data[j]? ≠ data.result_data[j]? → in_range params j) ∧
      (∀ j, ¬ in_range params j → after.result_data[j]? = data.result_data[j]?) ∧
      (∀ j, in_range params j →
        after.result_data[j]? = some (xor_at data.input_data data.random_pad j)) := by
  obtain ⟨out, hout, hl, hw, hf⟩ :=
    xor_worker_spec data.input_data data.random_pad data.result_data data.length h1 h2 h3
      params hft htl
  refine ⟨{ data with result_data := out }, ?_, rfl, rfl, rfl, rfl, rfl, ?_, ?_, hf, hw⟩
  · simp only [xor_worker_shared, hout]
  · simp only [hl, h3]
  · intro j hne
    by_contra hnot
    exact hne (hf j hnot)

theorem xor_worker_frame_witness :
    (shared_data.mk [1, 2, 3, 4] [5, 6, 7, 8] [0, 0, 0, 0] 4
      (prng_config.mk 0 0 0 5) 2).input_data.length = 4 ∧
    (shared_data.mk [1, 2, 3, 4] [5, 6, 7, 8] [0, 0, 0, 0] 4
      (prng_config.mk 0 0 0 5) 2).random_pad.length = 4 ∧
    (shared_data.mk [1, 2, 3, 4] [5, 6, 7, 8] [0, 0, 0, 0] 4
      (prng_config.mk 0 0 0 5) 2).result_data.length = 4 ∧
    (thread_params.mk 0 1 3).from_ ≤ (thread_params.mk 0 1 3).to_ ∧
    (thread_params.mk 0 1 3).to_ ≤ 4 ∧
    ∃ after, xor_worker_shared (thread_params.mk 0 1 3)
        (shared_data.mk [1, 2, 3, 4] [5, 6, 7, 8] [0, 0, 0, 0] 4 (prng_config.mk 0 0 0 5) 2)
        = some after ∧
      after.input_data = [1, 2, 3, 4] ∧
      after.random_pad = [5, 6, 7, 8] ∧
      after.length = 4 ∧ after.config = prng_config.mk 0 0 0 5 ∧
      after.thread_count = 2 ∧
      after.result_data.length = [0, 0, 0, 0].length ∧
      (∀ j, after.result_data[j]? ≠ [0, 0, 0, 0][j]? → in_range (thread_params.mk 0 1 3) j) ∧
      (∀ j, ¬ in_range (thread_params.mk 0 1 3) j → after.result_data[j]? = [0, 0, 0, 0][j]?) ∧
      (∀ j, in_range (thread_params.mk 0 1 3) j →
        after.result_data[j]? = some (xor_at [1, 2, 3, 4] [5, 6, 7, 8] j)) :=
  ⟨rfl, rfl, rfl, by decide, by decide,
    xor_worker_frame
      (shared_data.mk [1, 2, 3, 4] [5, 6, 7, 8] [0, 0, 0, 0] 4 (prng_config.mk 0 0 0 5) 2)
      (thread_params.mk 0 1 3) rfl rfl rfl (by decide) (by decide)⟩

/-! ## detect_cores and the divisions of main -/

/-- With the thread bookkeeping allocated and a thread count below the largest
`int`, the workers of main on buffers of one length below `2^64` run without
undefined behaviour. -/
theorem main_workers_defined (host : Host) (dst : String) (input_data random_pad : List Nat)
    (junk : Nat → Nat) (trace : List Event) (hlen : random_pad.length = input_data.length)
    (hsize : input_data.length < 2 ^ 64) (h3 : host.malloc_workers_ok = true)
    (h4 : host.malloc_params_ok = true) (hc : detect_cores host.cores < 2 ^ 31 - 1) :
    (main_workers host dst input_data random_pad (malloc junk input_data.length) trace).status
      ≠ Status.undefined_behaviour := by
  have hpos := detect_cores_toNat_pos host.cores
  have hne : (detect_cores host.cores).toNat ≠ 0 := by omega
  have hov : ¬ 2 ^ 31 ≤ (detect_cores host.cores).toNat + 1 := by omega
  have hrun := engine_spec junk input_data random_pad _ hlen hsize hpos
  simp only [main_workers, hne, hov, h3, h4, hrun, if_false, Bool.not_true, Bool.or_self]
  rw [if_neg (by decide)]
  split <;> simp

/-- With a nonzero modulus, the unchecked allocations succeeding and a thread
count below the largest `int`, the run of lines 97-184 has no undefined
behaviour, for every file size below `2^64`. -/
theorem main_run_defined (host : Host) (src dst : String) (gen_cfg : prng_config)
    (buffer : List Nat) (hfile : host.read_file src = some buffer)
    (hsize : buffer.length < 2 ^ 64) (hm : 0 < gen_cfg.modulus)
    (h2 : host.malloc_pad_ok = true) (h3 : host.malloc_workers_ok = true)
    (h4 : host.malloc_params_ok = true) (hc : detect_cores host.cores < 2 ^ 31 - 1) :
    (main_run host src dst gen_cfg).status ≠ Status.undefined_behaviour := by
  have hp : pad_alloc host = malloc host.junk_pad := by simp [pad_alloc, h2]
  simp only [main_run, hfile, hp, generate_pad_eq_spec_keystream host.junk_pad gen_cfg hm]
  split
  · simp
  · split
    · simp
    · exact main_workers_defined host dst buffer _ host.junk_result _
        (spec_keystream_length _ _) hsize h3 h4 hc

/-- C17, counterexample: the host value 2147483648 is `>= 1`, yet `detect_cores`
returns 1 and not that value, because line 62 stores it in an `int`. -/
theorem detect_cores_narrows_reported :
    (1 : Int) ≤ 2147483648 ∧ detect_cores 2147483648 = 1 ∧
    detect_cores 2147483648 ≠ 2147483648 := by
  decide

/-- C17, amended: for every value the host query returns, including 0 and
negative values, `detect_cores` returns an integer between 1 and `2^31 - 1`: the
value as converted to `int` when that is `>= 1`, otherwise 1. It is the reported
value itself when that lies between 1 and `2^31 - 1`, and 1 when it lies between
`-2^31` and 0. So the divisor of lines 139-140 is never zero, and with a nonzero
modulus, the unchecked allocations succeeding and a thread count below the
largest `int`, a run of main has no undefined behaviour for every file size,
including 0. -/
theorem detect_cores_at_least_one (reported : Int) :
    1 ≤ detect_cores reported ∧
    detect_cores reported ≤ 2 ^ 31 - 1 ∧
    detect_cores reported = (if 1 ≤ to_int reported then to_int reported else 1) ∧
    (1 ≤ reported → reported ≤ 2 ^ 31 - 1 → detect_cores reported = reported) ∧
    (-2 ^ 31 ≤ reported → reported < 1 → detect_cores reported = 1) ∧
    (detect_cores reported).toNat ≠ 0 ∧
    ((detect_cores reported).toNat : Int) = detect_cores reported ∧
    (∀ (host : Host) (src dst : String) (gen_cfg : prng_config) (buffer : List Nat),
      host.cores = reported → host.read_file src = some buffer → buffer.length < 2 ^ 64 →
      0 < gen_cfg.modulus → host.malloc_pad_ok = true → host.malloc_workers_ok = true →
      host.malloc_params_ok = true → detect_cores reported < 2 ^ 31 - 1 →
      (main_run host src dst gen_cfg).status ≠ Status.undefined_behaviour) := by
  have hr := to_int_range reported
  have hd := detect_cores_eq reported
  have h1 : 1 ≤ detect_cores reported := by
    rw [hd]
    split <;> omega
  refine ⟨h1, ?_, ?_, ?_, ?_, ?_, ?_, ?_⟩
  · rw [hd]
    split <;> omega
  · rw [hd]
    split
    · rw [if_neg (by omega)]
    · rw [if_pos (by omega)]
  · intro ha hb
    rw [hd, to_int_of_range reported (by omega) (by omega), if_neg (by omega)]
  · intro ha hb
    rw [hd, to_int_of_range reported ha (by omega), if_pos hb]
  · omega
  · omega
  · intro host src dst gen_cfg buffer hcores hfile hsize hm h2 h3 h4 hc
    subst hcores
    exact main_run_defined host src dst gen_cfg buffer hfile hsize hm h2 h3 h4 hc

theorem detect_cores_at_least_one_witness :
    1 ≤ detect_cores (-4) ∧ detect_cores (-4) = 1 ∧ detect_cores 3 = 3 ∧
    (main_run sample_host "in" "out" (prng_config.mk 0 0 0 5)).status
      ≠ Status.undefined_behaviour :=
  ⟨(detect_cores_at_least_one (-4)).1,
    (detect_cores_at_least_one (-4)).2.2.2.2.1 (by decide) (by decide),
    (detect_cores_at_least_one 3).2.2.2.1 (by decide) (by decide),
    (detect_cores_at_least_one 3).2.2.2.2.2.2.2 sample_host "in" "out"
      (prng_config.mk 0 0 0 5) [0, 0, 0, 0, 65] rfl rfl (by decide) (by decide) rfl rfl rfl
      (by decide)⟩

/-! ## More workers than bytes -/

theorem xor_worker_empty (input_data random_pad : List Nat) (params : thread_params)
    (result_data : List Nat) (h : params.to_ ≤ params.from_) :
    xor_worker input_data random_pad params result_data = some result_data := by
  unfold xor_worker
  rw [Nat.sub_eq_zero_of_le h]
  rfl

theorem run_workers_all_empty (input_data random_pad : List Nat) :
    ∀ (ps : List thread_params) (result_data : List Nat), (∀ p ∈ ps, p.to_ ≤ p.from_) →
      run_workers input_data random_pad ps result_data = some result_data := by
  intro ps
  induction ps with
  | nil => intro _ _; rfl
  | cons p ps ih =>
    intro result_data h
    simp only [run_workers, xor_worker_empty input_data random_pad p result_data
      (h p (List.mem_cons_self p ps))]
    exact ih result_data (fun q hq => h q (List.mem_cons_of_mem p hq))

theorem run_workers_append (input_data random_pad : List Nat) :
    ∀ (ps qs : List thread_params) (result_data : List Nat),
      run_workers input_data random_pad (ps ++ qs) result_data
        = (run_workers input_data random_pad ps result_data).bind
            (run_workers input_data random_pad qs) := by
  intro ps
  induction ps with
  | nil => intro qs result_data; rfl
  | cons p ps ih =>
    intro qs result_data
    simp only [List.cons_append, run_workers]
    cases xor_worker input_data random_pad p result_data with
    | none => rfl
    | some r => exact ih qs r

theorem run_workers_single (input_data random_pad : List Nat) (p : thread_params)
    (result_data : List Nat) :
    run_workers input_data random_pad [p] result_data
      = xor_worker input_data random_pad p result_data := by
  simp only [run_workers]
  cases xor_worker input_data random_pad p result_data <;> rfl

/-- C18: when `thread_count > length`, `step` is 0, every worker but the last is
assigned the empty range `[0, 0)` and the last worker is assigned `[0, length)`;
main still creates `thread_count` workers (no clamping), and their run is the run
of the last worker alone. -/
theorem oversubscribed_partition (L n : Nat) (hgt : L < n) (hL : L < 2 ^ 64) :
    L / n = 0 ∧
    (∀ k, k + 1 < n → (make_params L n k).from_ = 0 ∧ (make_params L n k).to_ = 0) ∧
    (make_params L n (n - 1)).from_ = 0 ∧
    (make_params L n (n - 1)).to_ = L ∧
    (partitions L n).length = n ∧
    (∀ input_data random_pad result_data : List Nat,
      run_workers input_data random_pad (partitions L n) result_data
        = xor_worker input_data random_pad (make_params L n (n - 1)) result_data) := by
  have hn : 1 ≤ n := by omega
  have hstep : L / n = 0 := Nat.div_eq_of_lt hgt
  have hinner : ∀ k, k + 1 < n →
      (make_params L n k).from_ = 0 ∧ (make_params L n k).to_ = 0 := by
    intro k hk
    rw [make_params_from L n k hL (by omega), make_params_to_inner L n k hL hk, hstep]
    simp
  refine ⟨hstep, hinner, ?_, (make_params_to_last L n hn hL).2, by simp [partitions], ?_⟩
  · rw [make_params_from L n (n - 1) hL (by omega), hstep]
    rfl
  · intro input_data random_pad result_data
    obtain ⟨m, rfl⟩ : ∃ m, n = m + 1 := ⟨n - 1, by omega⟩
    have hsplit : partitions L (m + 1)
        = (List.range m).map (make_params L (m + 1)) ++ [make_params L (m + 1) m] := by
      simp [partitions, List.range_succ]
    rw [hsplit, run_workers_append,
      run_workers_all_empty input_data random_pad _ result_data (by
        intro p hp
        simp only [List.mem_map, List.mem_range] at hp
        obtain ⟨k, hk, rfl⟩ := hp
        have h := hinner k (by omega)
        omega)]
    simp only [Option.bind, Nat.add_sub_cancel]
    exact run_workers_single input_data random_pad _ result_data

theorem oversubscribed_partition_witness :
    3 < 5 ∧ 3 < 2 ^ 64 ∧
    3 / 5 = 0 ∧
    (∀ k, k + 1 < 5 → (make_params 3 5 k).from_ = 0 ∧ (make_params 3 5 k).to_ = 0) ∧
    (make_params 3 5 (5 - 1)).from_ = 0 ∧
    (make_params 3 5 (5 - 1)).to_ = 3 ∧
    (partitions 3 5).length = 5 ∧
    (∀ input_data random_pad result_data : List Nat,
      run_workers input_data random_pad (partitions 3 5) result_data
        = xor_worker input_data random_pad (make_params 3 5 (5 - 1)) result_data) :=
  ⟨by decide, by decide, oversubscribed_partition 3 5 (by decide) (by decide)⟩

/-! ## Range of the states -/

/-- After at least one step the value is below the modulus. -/
theorem iterate_lt_modulus (config : prng_config) (hm : 0 < config.modulus) (value j : Nat) :
    (lcg_step config)^[j + 1] value < config.modulus := by
  rw [Function.iterate_succ_apply']
  exact Nat.mod_lt _ hm

/-- Under the two bounds of the claim no product and no sum of line 40 reaches
`2^64`, at any iteration. -/
theorem no_wrap_at (config : prng_config) (hm : 0 < config.modulus)
    (h0 : config.multiplier * config.initial + config.increment < 2 ^ 64)
    (h1 : config.multiplier * (config.modulus - 1) + config.increment < 2 ^ 64) (j : Nat) :
    config.multiplier * (lcg_step config)^[j] config.initial + config.increment < 2 ^ 64 := by
  cases j with
  | zero => exact h0
  | succ j =>
    have hlt := iterate_lt_modulus config hm config.initial j
    have hle : config.multiplier * (lcg_step config)^[j + 1] config.initial
        ≤ config.multiplier * (config.modulus - 1) :=
      Nat.mul_le_mul_left _ (by omega)
    omega

theorem exact_state_eq (config : prng_config) (hm : 0 < config.modulus)
    (h0 : config.multiplier * config.initial + config.increment < 2 ^ 64)
    (h1 : config.multiplier * (config.modulus - 1) + config.increment < 2 ^ 64) (j : Nat) :
    exact_state config j = (lcg_step config)^[j] config.initial := by
  induction j with
  | zero => rfl
  | succ j ih =>
    rw [Function.iterate_succ_apply', exact_state, lcg_step_eq, ih,
      Nat.mod_eq_of_lt (no_wrap_at config hm h0 h1 j)]

/-- C19: if the modulus is nonzero, `multiplier * initial + increment < 2^64` and
`multiplier * (modulus - 1) + increment < 2^64`, then at every iteration of
`generate_pad` neither the product nor the sum of line 40 wraps, and for every
length the pad equals the keystream of the recurrence
`state_i = (multiplier * state_(i-1) + increment) mod modulus` in exact integer
arithmetic. -/
theorem no_wrap_matches_exact (config : prng_config) (hm : 0 < config.modulus)
    (h0 : config.multiplier * config.initial + config.increment < 2 ^ 64)
    (h1 : config.multiplier * (config.modulus - 1) + config.increment < 2 ^ 64) :
    (∀ j,
      wrap (config.multiplier * (lcg_step config)^[j] config.initial)
        = config.multiplier * (lcg_step config)^[j] config.initial ∧
      wrap (wrap (config.multiplier * (lcg_step config)^[j] config.initial)
          + config.increment)
        = config.multiplier * (lcg_step config)^[j] config.initial + config.increment) ∧
    (∀ (junk : Nat → Nat) (L : Nat),
      generate_pad (malloc junk) config L = some (exact_keystream config L)) := by
  refine ⟨?_, ?_⟩
  · intro j
    have h := no_wrap_at config hm h0 h1 j
    have hp : wrap (config.multiplier * (lcg_step config)^[j] config.initial)
        = config.multiplier * (lcg_step config)^[j] config.initial :=
      wrap_of_lt _ (by omega)
    exact ⟨hp, by rw [hp]; exact wrap_of_lt _ h⟩
  · intro junk L
    rw [generate_pad_eq_spec_keystream junk config hm L]
    congr 1
    unfold spec_keystream exact_keystream
    apply List.map_congr_left
    intro i _
    rw [spec_state_eq_iterate, exact_state_eq config hm h0 h1]

theorem no_wrap_matches_exact_witness :
    0 < (prng_config.mk 1 1103515245 12345 2147483648).modulus ∧
    (prng_config.mk 1 1103515245 12345 2147483648).multiplier
        * (prng_config.mk 1 1103515245 12345 2147483648).initial
      + (prng_config.mk 1 1103515245 12345 2147483648).increment < 2 ^ 64 ∧
    (prng_config.mk 1 1103515245 12345 2147483648).multiplier
        * ((prng_config.mk 1 1103515245 12345 2147483648).modulus - 1)
      + (prng_config.mk 1 1103515245 12345 2147483648).increment < 2 ^ 64 ∧
    (∀ (junk : Nat → Nat) (L : Nat),
      generate_pad (malloc junk) (prng_config.mk 1 1103515245 12345 2147483648) L
        = some (exact_keystream (prng_config.mk 1 1103515245 12345 2147483648) L)) :=
  ⟨by decide, by decide, by decide,
    (no_wrap_matches_exact (prng_config.mk 1 1103515245 12345 2147483648) (by decide)
      (by decide) (by decide)).2⟩

theorem xor_image_zero_pad (input_data : List Nat) (hin : is_bytes input_data) :
    xor_image input_data (List.replicate input_data.length 0) = input_data := by
  apply List.ext_getElem?
  intro j
  by_cases hj : j < input_data.length
  · rw [xor_image_getElem? _ _ j hj,
      xor_at_eq input_data _ j input_data[j] 0 (List.getElem?_eq_getElem hj)
        (by simp [List.getElem?_replicate, hj]),
      Nat.xor_zero, to_uchar_of_lt _ (is_bytes_getElem _ hin j hj), List.getElem?_eq_getElem hj]
  · rw [List.getElem?_eq_none (by simp [xor_image]; omega), List.getElem?_eq_none (by omega)]

theorem spec_keystream_modulus_one (config : prng_config) (h1 : config.modulus = 1) (L : Nat) :
    spec_keystream config L = List.replicate L 0 := by
  apply List.ext_getElem?
  intro j
  by_cases hj : j < L
  · rw [spec_keystream_getElem? config L j hj, List.getElem?_replicate, if_pos hj,
      spec_state_eq_iterate]
    have h := iterate_lt_modulus config (by omega) config.initial j
    rw [h1] at h
    rw [Nat.lt_one_iff.mp h]
  · rw [List.getElem?_eq_none (by simp [spec_keystream]; omega),
      List.getElem?_eq_none (by simp; omega)]

/-- C20: every value `generate_pad` computes after the first step is below the
modulus; so for `0 < modulus <= 256` every byte of the pad is below the modulus,
and for modulus 1 the pad is all zeros for every seed, multiplier and increment
and the pipeline returns its byte input unchanged. -/
theorem states_below_modulus (config : prng_config) (hm : 0 < config.modulus) :
    (∀ j, (lcg_step config)^[j + 1] config.initial < config.modulus) ∧
    (config.modulus ≤ 256 → ∀ (junk : Nat → Nat) (L : Nat),
      ∃ keystream, generate_pad (malloc junk) config L = some keystream ∧
        keystream.length = L ∧ ∀ b ∈ keystream, b < config.modulus) ∧
    (config.modulus = 1 → ∀ (junk : Nat → Nat) (L : Nat),
      generate_pad (malloc junk) config L = some (List.replicate L 0)) ∧
    (config.modulus = 1 → ∀ (junk_pad junk_result : Nat → Nat) (n : Nat)
      (input_data : List Nat), 1 ≤ n → is_bytes input_data → input_data.length < 2 ^ 64 →
      pipeline junk_pad junk_result config n input_data = some input_data) := by
  refine ⟨fun j => iterate_lt_modulus config hm config.initial j, ?_, ?_, ?_⟩
  · intro h256 junk L
    refine ⟨spec_keystream config L, generate_pad_eq_spec_keystream junk config hm L,
      spec_keystream_length config L, ?_⟩
    intro b hb
    simp only [spec_keystream, List.mem_map, List.mem_range] at hb
    obtain ⟨i, _, rfl⟩ := hb
    rw [spec_state_eq_iterate]
    have h := iterate_lt_modulus config hm config.initial i
    rw [Nat.mod_eq_of_lt (by omega)]
    exact h
  · intro h1 junk L
    rw [generate_pad_eq_spec_keystream junk config hm L, spec_keystream_modulus_one config h1]
  · intro h1 junk_pad junk_result n input_data hn hin hsize
    rw [pipeline_eq junk_pad junk_result config hm n hn input_data hsize,
      spec_keystream_modulus_one config h1, xor_image_zero_pad input_data hin]

theorem states_below_modulus_witness :
    0 < (prng_config.mk 77 5 3 1).modulus ∧
    (∀ j, (lcg_step (prng_config.mk 77 5 3 1))^[j + 1] (prng_config.mk 77 5 3 1).initial
      < (prng_config.mk 77 5 3 1).modulus) ∧
    (∀ (junk : Nat → Nat) (L : Nat),
      generate_pad (malloc junk) (prng_config.mk 77 5 3 1) L = some (List.replicate L 0)) ∧
    pipeline (fun _ => 1) (fun _ => 2) (prng_config.mk 77 5 3 1) 2 [10, 20, 255]
      = some [10, 20, 255] :=
  ⟨by decide, (states_below_modulus (prng_config.mk 77 5 3 1) (by decide)).1,
    (states_below_modulus (prng_config.mk 77 5 3 1) (by decide)).2.2.1 rfl,
    (states_below_modulus (prng_config.mk 77 5 3 1) (by decide)).2.2.2 rfl
      (fun _ => 1) (fun _ => 2) 2 [10, 20, 255] (by decide) (by decide) (by decide)⟩

/-! ## The completion barrier -/

theorem byte_done_set (input_data random_pad result_data : List Nat) (i a b j : Nat)
    (ha : input_data[i]? = some a) (hb : random_pad[i]? = some b)
    (h : byte_done input_data random_pad result_data j) :
    byte_done input_data random_pad (result_data.set i (to_uchar (a ^^^ b))) j := by
  unfold byte_done at h ⊢
  by_cases hij : i = j
  · subst hij
    have hlt : i < result_data.length := by
      by_contra hge
      rw [List.getElem?_eq_none (by omega)] at h
      contradiction
    rw [List.getElem?_set, if_pos rfl, if_pos hlt, xor_at_eq input_data random_pad i a b ha hb]
  · rw [List.getElem?_set_ne hij]
    exact h

theorem byte_done_set_self (input_data random_pad result_data : List Nat) (i a b : Nat)
    (ha : input_data[i]? = some a) (hb : random_pad[i]? = some b)
    (hlt : i < result_data.length) :
    byte_done input_data random_pad (result_data.set i (to_uchar (a ^^^ b))) i := by
  unfold byte_done
  rw [List.getElem?_set, if_pos rfl, if_pos hlt, xor_at_eq input_data random_pad i a b ha hb]

/-- The facts about a worker survive a step that keeps its arrival status and
the bytes already done. -/
theorem worker_inv_transfer (input_data random_pad : List Nat) (n : Nat)
    (arr arr2 : List party) (r r2 : List Nat) (k : Nat) (pc : worker_pc)
    (hmem : party.worker k ∈ arr2 ↔ party.worker k ∈ arr)
    (hbytes : ∀ j, byte_done input_data random_pad r j → byte_done input_data random_pad r2 j)
    (h : worker_inv input_data random_pad n arr r k pc) :
    worker_inv input_data random_pad n arr2 r2 k pc := by
  cases pc with
  | not_created => exact fun hin => h (hmem.mp hin)
  | looping i =>
    obtain ⟨h1, h2, h3, h4⟩ := h
    exact ⟨fun hin => h1 (hmem.mp hin), h2, h3, fun j hj1 hj2 => hbytes j (h4 j hj1 hj2)⟩
  | blocked => exact ⟨hmem.mpr h.1, fun j hj => hbytes j (h.2 j hj)⟩
  | finished => exact ⟨hmem.mpr h.1, fun j hj => hbytes j (h.2 j hj)⟩

/-- The facts about all workers after worker `k` moved to a new place. -/
theorem worker_ok_set (input_data random_pad : List Nat) (n : Nat)
    (arr arr2 : List party) (r r2 : List Nat) (workers : List worker_pc) (k : Nat)
    (pcnew : worker_pc)
    (hold : ∀ k2 pc, workers[k2]? = some pc → worker_inv input_data random_pad n arr r k2 pc)
    (hnew : worker_inv input_data random_pad n arr2 r2 k pcnew)
    (hmem : ∀ k2, k2 ≠ k → (party.worker k2 ∈ arr2 ↔ party.worker k2 ∈ arr))
    (hbytes : ∀ j, byte_done input_data random_pad r j →
      byte_done input_data random_pad r2 j) :
    ∀ k2 pc, (workers.set k pcnew)[k2]? = some pc →
      worker_inv input_data random_pad n arr2 r2 k2 pc := by
  intro k2 pc h
  by_cases hk : k = k2
  · subst hk
    rw [List.getElem?_set, if_pos rfl] at h
    split at h
    · injection h with h
      subst h
      exact hnew
    · contradiction
  · rw [List.getElem?_set_ne hk] at h
    exact worker_inv_transfer input_data random_pad n arr arr2 r r2 k2 pc
      (hmem k2 (fun e => hk e.symm)) hbytes (hold k2 pc h)

/-- Moving a created worker does not touch what the coordinator relies on. -/
theorem coordinator_inv_set (n : Nat) (arr : List party) (workers : List worker_pc)
    (c : coordinator_pc) (k : Nat) (pc pcnew : worker_pc) (hpc : workers[k]? = some pc)
    (hne : pc ≠ worker_pc.not_created) (h : coordinator_inv n arr workers c) :
    coordinator_inv n arr (workers.set k pcnew) c := by
  cases c with
  | creating i =>
    refine ⟨h.1, fun k2 h1 h2 => ?_⟩
    have hk2 := h.2 k2 h1 h2
    have hkk : k ≠ k2 := by
      intro e
      subst e
      rw [hpc] at hk2
      injection hk2 with hk2
      exact hne hk2
    rw [List.getElem?_set_ne hkk]
    exact hk2
  | blocked => exact h
  | released => exact h
  | written => exact h

/-- An arrival of a worker keeps what the coordinator relies on. -/
theorem coordinator_inv_arrival (n : Nat) (arr : List party) (workers : List worker_pc)
    (c : coordinator_pc) (k : Nat) (h : coordinator_inv n arr workers c) :
    coordinator_inv n (arr ++ [party.worker k]) workers c := by
  cases c with
  | creating i =>
    refine ⟨?_, h.2⟩
    intro hin
    rcases List.mem_append.mp hin with hin | hin
    · exact h.1 hin
    · simp at hin
  | blocked => exact List.mem_append_left _ h
  | released =>
    exact ⟨List.mem_append_left _ h.1, fun k2 hk2 => List.mem_append_left _ (h.2 k2 hk2)⟩
  | written =>
    exact ⟨List.mem_append_left _ h.1, fun k2 hk2 => List.mem_append_left _ (h.2 k2 hk2)⟩

/-- Once as many distinct known parties have arrived as there are parties, every
worker is among them. -/
theorem all_arrived (n : Nat) (arr : List party) (hnd : arr.Nodup)
    (hknown : ∀ p ∈ arr, p = party.coordinator ∨ ∃ k, k < n ∧ p = party.worker k)
    (hlen : arr.length = n + 1) :
    ∀ k, k < n → party.worker k ∈ arr := by
  have hsub : arr ⊆ party.coordinator :: (List.range n).map party.worker := by
    intro p hp
    rcases hknown p hp with rfl | ⟨k, hk, rfl⟩
    · exact List.mem_cons_self _ _
    · exact List.mem_cons_of_mem _ (List.mem_map.mpr ⟨k, List.mem_range.mpr hk, rfl⟩)
  have hperm : arr.Perm (party.coordinator :: (List.range n).map party.worker) :=
    (List.subperm_of_subset hnd hsub).perm_of_length_le (by simp [hlen])
  intro k hk
  exact hperm.mem_iff.mpr
    (List.mem_cons_of_mem _ (List.mem_map.mpr ⟨k, List.mem_range.mpr hk, rfl⟩))

/-- When every worker has arrived, the result buffer is complete. -/
theorem all_done (input_data random_pad : List Nat) (n : Nat) (s : thread_state)
    (hinv : thread_inv input_data random_pad n s) (hn : 1 ≤ n)
    (hsize : input_data.length < 2 ^ 64)
    (hall : ∀ k, k < n → party.worker k ∈ s.arrivals) :
    s.result_data = xor_image input_data random_pad := by
  apply List.ext_getElem?
  intro j
  by_cases hj : j < input_data.length
  · obtain ⟨k, hk, hin⟩ := partition_covers input_data.length n j hn hsize hj
    have hklt : k < s.workers.length := by rw [hinv.workers_length]; exact hk
    have hw := hinv.worker_ok k _ (List.getElem?_eq_getElem hklt)
    rw [xor_image_getElem? _ _ j hj]
    generalize s.workers[k] = pc at hw
    cases pc with
    | not_created => exact absurd (hall k hk) hw
    | looping i => exact absurd (hall k hk) hw.1
    | blocked => exact hw.2 j hin
    | finished => exact hw.2 j hin
  · rw [List.getElem?_eq_none (by rw [hinv.result_length]; omega),
      List.getElem?_eq_none (by simp [xor_image]; omega)]

theorem thread_init_inv (junk : Nat → Nat) (input_data random_pad : List Nat) (n : Nat)
    (hint : n + 1 < 2 ^ 31) :
    thread_inv input_data random_pad n (thread_init junk input_data.length n) where
  workers_length := by simp [thread_init]
  result_length := by simp [thread_init, malloc_length]
  count_eq := by
    show (n + 1) % 2 ^ 32 = n + 1
    exact Nat.mod_eq_of_lt (by omega)
  nodup := List.nodup_nil
  known := by
    intro p hp
    simp [thread_init] at hp
  worker_ok := by
    intro k pc h
    simp only [thread_init, List.getElem?_replicate] at h
    split at h
    · injection h with h
      subst h
      exact List.not_mem_nil _
    · contradiction
  coordinator_ok := by
    refine ⟨List.not_mem_nil _, fun k _ hk => ?_⟩
    simp [thread_init, List.getElem?_replicate, hk]
  file_ok := by
    intro out h
    simp [thread_init] at h

theorem index_lt_of_getElem? {α : Type} (l : List α) (k : Nat) (a : α) (h : l[k]? = some a) :
    k < l.length := by
  by_contra hge
  rw [List.getElem?_eq_none (by omega)] at h
  contradiction

theorem mem_append_worker (arr : List party) (k k2 : Nat) (hne : k2 ≠ k) :
    party.worker k2 ∈ arr ++ [party.worker k] ↔ party.worker k2 ∈ arr := by
  simp [hne]

/-- A step of a worker keeps the invariant. -/
theorem worker_step_inv (input_data random_pad : List Nat) (n k : Nat) (s t : thread_state)
    (hinv : thread_inv input_data random_pad n s)
    (h : worker_step input_data random_pad input_data.length n k s = some t) :
    thread_inv input_data random_pad n t := by
  unfold worker_step at h
  split at h
  · rename_i i hpc
    have hw := hinv.worker_ok k _ hpc
    have hkn : k < n := by
      rw [← hinv.workers_length]
      exact index_lt_of_getElem? _ _ _ hpc
    split at h
    · rename_i hito
      split at h
      · rename_i a b ha hb
        split at h
        · rename_i hir
          injection h with h
          subst h
          have hbytes : ∀ j, byte_done input_data random_pad s.result_data j →
              byte_done input_data random_pad
                (s.result_data.set i (to_uchar (a ^^^ b))) j :=
            fun j hj => byte_done_set input_data random_pad s.result_data i a b j ha hb hj
          exact {
            workers_length := by simp [hinv.workers_length]
            result_length := by simp [hinv.result_length]
            count_eq := hinv.count_eq
            nodup := hinv.nodup
            known := hinv.known
            worker_ok := by
              apply worker_ok_set input_data random_pad n s.arrivals s.arrivals s.result_data _
                s.workers k _ hinv.worker_ok _ (fun _ _ => Iff.rfl) hbytes
              refine ⟨hw.1, by have := hw.2.1; omega, by omega, ?_⟩
              intro j hj1 hj2
              by_cases hji : j = i
              · subst hji
                exact byte_done_set_self input_data random_pad s.result_data j a b ha hb hir
              · exact hbytes j (hw.2.2.2 j hj1 (by omega))
            coordinator_ok :=
              coordinator_inv_set n s.arrivals s.workers s.coordinator k _ _ hpc
                (by intro e; cases e) hinv.coordinator_ok
            file_ok := hinv.file_ok }
        · contradiction
      · contradiction
    · rename_i hito
      injection h with h
      subst h
      exact {
        workers_length := by simp [hinv.workers_length]
        result_length := hinv.result_length
        count_eq := hinv.count_eq
        nodup := by
          show (s.arrivals ++ [party.worker k]).Nodup
          rw [← List.concat_eq_append]
          exact List.Nodup.concat hw.1 hinv.nodup
        known := by
          intro p hp
          rcases List.mem_append.mp hp with hp | hp
          · exact hinv.known p hp
          · rw [List.mem_singleton.mp hp]
            exact Or.inr ⟨k, hkn, rfl⟩
        worker_ok := by
          apply worker_ok_set input_data random_pad n s.arrivals _ s.result_data s.result_data
            s.workers k _ hinv.worker_ok _
            (fun k2 hne => mem_append_worker s.arrivals k k2 hne) (fun _ hj => hj)
          refine ⟨List.mem_append_right _ (List.mem_singleton_self _), ?_⟩
          intro j hj
          exact hw.2.2.2 j hj.1 (by have := hj.2; omega)
        coordinator_ok :=
          coordinator_inv_arrival n s.arrivals _ s.coordinator k
            (coordinator_inv_set n s.arrivals s.workers s.coordinator k _ _ hpc
              (by intro e; cases e) hinv.coordinator_ok)
        file_ok := hinv.file_ok }
  · rename_i hpc
    have hw := hinv.worker_ok k _ hpc
    split at h
    · injection h with h
      subst h
      exact {
        workers_length := by simp [hinv.workers_length]
        result_length := hinv.result_length
        count_eq := hinv.count_eq
        nodup := hinv.nodup
        known := hinv.known
        worker_ok :=
          worker_ok_set input_data random_pad n s.arrivals s.arrivals s.result_data
            s.result_data s.workers k _ hinv.worker_ok hw (fun _ _ => Iff.rfl) (fun _ hj => hj)
        coordinator_ok :=
          coordinator_inv_set n s.arrivals s.workers s.coordinator k _ _ hpc
            (by intro e; cases e) hinv.coordinator_ok
        file_ok := hinv.file_ok }
    · contradiction
  · contradiction

theorem mem_append_coordinator (arr : List party) (k : Nat) :
    party.worker k ∈ arr ++ [party.coordinator] ↔ party.worker k ∈ arr := by
  simp

/-- A step of the coordinator keeps the invariant. -/
theorem coordinator_step_inv (input_data random_pad : List Nat) (n : Nat)
    (s t : thread_state) (hn : 1 ≤ n) (hsize : input_data.length < 2 ^ 64)
    (hinv : thread_inv input_data random_pad n s)
    (h : coordinator_step input_data.length n s = some t) :
    thread_inv input_data random_pad n t := by
  have hc := hinv.coordinator_ok
  unfold coordinator_step at h
  split at h
  · rename_i i hpc
    rw [hpc] at hc
    split at h
    · rename_i hin
      injection h with h
      subst h
      have hnc := hc.2 i (Nat.le_refl i) hin
      have hnot : party.worker i ∉ s.arrivals := hinv.worker_ok i _ hnc
      have hb := make_params_bounds input_data.length n i hn hsize hin
      exact {
        workers_length := by simp [hinv.workers_length]
        result_length := hinv.result_length
        count_eq := hinv.count_eq
        nodup := hinv.nodup
        known := hinv.known
        worker_ok :=
          worker_ok_set input_data random_pad n s.arrivals s.arrivals s.result_data
            s.result_data s.workers i _ hinv.worker_ok
            ⟨hnot, Nat.le_refl _, hb.1, fun j hj1 hj2 => by omega⟩
            (fun _ _ => Iff.rfl) (fun _ hj => hj)
        coordinator_ok := by
          refine ⟨hc.1, fun k hk1 hk2 => ?_⟩
          show (s.workers.set i _)[k]? = some worker_pc.not_created
          rw [List.getElem?_set_ne (by omega)]
          exact hc.2 k (by omega) hk2
        file_ok := hinv.file_ok }
    · injection h with h
      subst h
      exact {
        workers_length := hinv.workers_length
        result_length := hinv.result_length
        count_eq := hinv.count_eq
        nodup := by
          show (s.arrivals ++ [party.coordinator]).Nodup
          rw [← List.concat_eq_append]
          exact List.Nodup.concat hc.1 hinv.nodup
        known := by
          intro p hp
          rcases List.mem_append.mp hp with hp | hp
          · exact hinv.known p hp
          · exact Or.inl (List.mem_singleton.mp hp)
        worker_ok := by
          intro k pc hk
          exact worker_inv_transfer input_data random_pad n s.arrivals _ s.result_data
            s.result_data k pc (mem_append_coordinator s.arrivals k) (fun _ hj => hj)
            (hinv.worker_ok k pc hk)
        coordinator_ok := List.mem_append_right _ (List.mem_singleton_self _)
        file_ok := hinv.file_ok }
  · rename_i hpc
    rw [hpc] at hc
    split at h
    · rename_i hopen
      injection h with h
      subst h
      have hlen : s.arrivals.length = n + 1 := by
        rw [← hinv.count_eq]
        exact hopen
      exact {
        workers_length := hinv.workers_length
        result_length := hinv.result_length
        count_eq := hinv.count_eq
        nodup := hinv.nodup
        known := hinv.known
        worker_ok := hinv.worker_ok
        coordinator_ok := ⟨hc, all_arrived n s.arrivals hinv.nodup hinv.known hlen⟩
        file_ok := hinv.file_ok }
    · contradiction
  · rename_i hpc
    rw [hpc] at hc
    injection h with h
    subst h
    exact {
      workers_length := hinv.workers_length
      result_length := hinv.result_length
      count_eq := hinv.count_eq
      nodup := hinv.nodup
      known := hinv.known
      worker_ok := hinv.worker_ok
      coordinator_ok := hc
      file_ok := by
        intro out hout
        injection hout with hout
        rw [← hout]
        exact all_done input_data random_pad n s hinv hn hsize hc.2 }
  · contradiction

/-- Every state an interleaving reaches satisfies the invariant. -/
theorem thread_run_inv (input_data random_pad : List Nat) (n : Nat) (hn : 1 ≤ n)
    (hsize : input_data.length < 2 ^ 64) :
    ∀ (schedule : List party) (s t : thread_state),
      thread_inv input_data random_pad n s →
      thread_run input_data random_pad input_data.length n s schedule = some t →
      thread_inv input_data random_pad n t := by
  intro schedule
  induction schedule with
  | nil =>
    intro s t hinv h
    simp only [thread_run] at h
    injection h with h
    rw [← h]
    exact hinv
  | cons p schedule ih =>
    intro s t hinv h
    simp only [thread_run] at h
    cases hstep : thread_step input_data random_pad input_data.length n s p with
    | none => rw [hstep] at h; contradiction
    | some u =>
      rw [hstep] at h
      refine ih u t ?_ h
      cases p with
      | worker k => exact worker_step_inv input_data random_pad n k s u hinv hstep
      | coordinator =>
        exact coordinator_step_inv input_data random_pad n s u hn hsize hinv hstep

/-- A worker that has arrived has written its whole range. -/
theorem arrived_done (input_data random_pad : List Nat) (n : Nat) (s : thread_state)
    (hinv : thread_inv input_data random_pad n s) (k : Nat)
    (hk : party.worker k ∈ s.arrivals) :
    k < n ∧ ∀ j, in_range (make_params input_data.length n k) j →
      s.result_data[j]? = some (xor_at input_data random_pad j) := by
  have hkn : k < n := by
    rcases hinv.known _ hk with h | ⟨k2, hk2, h⟩
    · cases h
    · injection h with h
      rw [h]
      exact hk2
  refine ⟨hkn, ?_⟩
  have hklt : k < s.workers.length := by rw [hinv.workers_length]; exact hkn
  have hw := hinv.worker_ok k _ (List.getElem?_eq_getElem hklt)
  generalize s.workers[k] = pc at hw
  cases pc with
  | not_created => exact absurd hk hw
  | looping i => exact absurd hk hw.1
  | blocked => exact hw.2
  | finished => exact hw.2

/-- C14: completion barrier. The barrier is initialised for `thread_count + 1`
parties. In every interleaving of the coordinator and the workers, no party
arrives at the barrier more than once, a worker that has arrived has written
every byte of its range, and once the coordinator is past the barrier every
worker and the coordinator have arrived exactly once and every worker has
written every byte of its range, so the result buffer is complete; the buffer
written to the output file is the complete result. -/
theorem barrier_completion (junk : Nat → Nat) (input_data random_pad : List Nat) (n : Nat)
    (schedule : List party) (s : thread_state)
    (hsize : input_data.length < 2 ^ 64) (hn : 1 ≤ n) (hint : n + 1 < 2 ^ 31)
    (hrun : thread_run input_data random_pad input_data.length n
      (thread_init junk input_data.length n) schedule = some s) :
    (thread_init junk input_data.length n).barrier_count = n + 1 ∧
    s.barrier_count = n + 1 ∧
    (∀ p, s.arrivals.count p ≤ 1) ∧
    (∀ k, party.worker k ∈ s.arrivals →
      k < n ∧ ∀ j, in_range (make_params input_data.length n k) j →
        s.result_data[j]? = some (xor_at input_data random_pad j)) ∧
    ((s.coordinator = coordinator_pc.released ∨ s.coordinator = coordinator_pc.written) →
      (∀ k, k < n → s.arrivals.count (party.worker k) = 1) ∧
      s.arrivals.count party.coordinator = 1 ∧
      (∀ k j, k < n → in_range (make_params input_data.length n k) j →
        s.result_data[j]? = some (xor_at input_data random_pad j)) ∧
      s.result_data = xor_image input_data random_pad) ∧
    (∀ out, s.written_file = some out → out = xor_image input_data random_pad) := by
  have hinit := thread_init_inv junk input_data random_pad n hint
  have hinv := thread_run_inv input_data random_pad n hn hsize schedule _ s hinit hrun
  refine ⟨hinit.count_eq, hinv.count_eq, List.nodup_iff_count_le_one.mp hinv.nodup,
    arrived_done input_data random_pad n s hinv, ?_, hinv.file_ok⟩
  intro hpast
  have hc := hinv.coordinator_ok
  have hall : party.coordinator ∈ s.arrivals ∧ ∀ k, k < n → party.worker k ∈ s.arrivals := by
    rcases hpast with h | h <;> (rw [h] at hc; exact hc)
  refine ⟨fun k hk => List.count_eq_one_of_mem hinv.nodup (hall.2 k hk),
    List.count_eq_one_of_mem hinv.nodup hall.1, ?_,
    all_done input_data random_pad n s hinv hn hsize hall.2⟩
  intro k j hk hj
  exact (arrived_done input_data random_pad n s hinv k (hall.2 k hk)).2 j hj

theorem barrier_completion_witness :
    [1, 2, 3].length < 2 ^ 64 ∧ 1 ≤ 2 ∧ 2 + 1 < 2 ^ 31 ∧
    thread_run [1, 2, 3] [4, 5, 6] [1, 2, 3].length 2
      (thread_init (fun _ => 9) [1, 2, 3].length 2) sample_schedule = some sample_final ∧
    sample_final.coordinator = coordinator_pc.written ∧
    (thread_init (fun _ => 9) [1, 2, 3].length 2).barrier_count = 2 + 1 ∧
    sample_final.barrier_count = 2 + 1 ∧
    (∀ p, sample_final.arrivals.count p ≤ 1) ∧
    (∀ k, party.worker k ∈ sample_final.arrivals →
      k < 2 ∧ ∀ j, in_range (make_params [1, 2, 3].length 2 k) j →
        sample_final.result_data[j]? = some (xor_at [1, 2, 3] [4, 5, 6] j)) ∧
    ((sample_final.coordinator = coordinator_pc.released ∨
        sample_final.coordinator = coordinator_pc.written) →
      (∀ k, k < 2 → sample_final.arrivals.count (party.worker k) = 1) ∧
      sample_final.arrivals.count party.coordinator = 1 ∧
      (∀ k j, k < 2 → in_range (make_params [1, 2, 3].length 2 k) j →
        sample_final.result_data[j]? = some (xor_at [1, 2, 3] [4, 5, 6] j)) ∧
      sample_final.result_data = xor_image [1, 2, 3] [4, 5, 6]) ∧
    (∀ out, sample_final.written_file = some out → out = xor_image [1, 2, 3] [4, 5, 6]) :=
  ⟨by decide, by decide, by decide, rfl, rfl,
    barrier_completion (fun _ => 9) [1, 2, 3] [4, 5, 6] 2 sample_schedule sample_final
      (by decide) (by decide) (by decide) rfl⟩

/-- With a barrier of only `thread_count` parties the coordinator can leave the
barrier, and write the file, before worker 1 has written a byte: the count
`thread_count + 1` of line 136 is what the completion rests on. -/
theorem barrier_count_matters :
    thread_run [1, 2, 3] [4, 5, 6] 3 2
        { thread_init (fun _ => 9) 3 2 with barrier_count := 2 }
        [party.coordinator, party.coordinator, party.coordinator, party.worker 0,
          party.worker 0, party.coordinator, party.coordinator]
      = some
        { result_data := [5, 9, 9]
          workers := [worker_pc.blocked, worker_pc.looping 1]
          coordinator := coordinator_pc.written
          barrier_count := 2
          arrivals := [party.coordinator, party.worker 0]
          written_file := some [5, 9, 9] } ∧
    [5, 9, 9] ≠ xor_image [1, 2, 3] [4, 5, 6] :=
  ⟨rfl, by decide⟩

end OTP
